import Mathlib

/-!
Verification of the dex-aggregator quote engine against its specification.

The Go source is shallowly embedded: Go big.Int values become Lean Int
(Go big.Int.Div is Euclidean division, which is Lean's Int division),
Go strings become Lean String, fallible functions return Except, and the
mutable search loop of the path finder becomes explicit state passing.
-/

namespace DexAgg

/-- Token information (internal/types/models.go, type Token). -/
structure Token where
  address : String
  symbol : String
  decimals : Int
  deriving Repr, DecidableEq

/-- Liquidity pool (internal/types/models.go, type Pool).  Go reserves are
big.Int pointers; they are embedded as Int.  LastUpdated (a Go time.Time,
serialized as an ISO-8601 string) is embedded as its string form. -/
structure Pool where
  address : String
  exchange : String
  version : String
  token0 : Token
  token1 : Token
  reserve0 : Int
  reserve1 : Int
  fee : Int
  lastUpdated : String
  deriving Repr, DecidableEq

/-- Trading path (internal/types/models.go, type TradePath). -/
structure TradePath where
  pools : List Pool
  amountOut : Int
  dexes : List String
  gasCost : Int
  deriving Repr, DecidableEq

/-- Quote request (internal/types/models.go, type QuoteRequest). -/
structure QuoteRequest where
  tokenIn : String
  tokenOut : String
  amountIn : Int
  maxHops : Int
  deriving Repr, DecidableEq

/-- Quote response (internal/types/models.go, type QuoteResponse).
BestPath is a pointer in Go and may be nil, hence Option. -/
structure QuoteResponse where
  amountOut : Int
  paths : List TradePath
  bestPath : Option TradePath
  gasEstimate : Int
  processingTime : Int
  deriving Repr, DecidableEq

/-- Error outcomes of the price calculator (Go returns error values built
with fmt.Errorf; only their identity matters to the callers). -/
inductive CalcErr where
  /-- The input token matches neither pool token. -/
  | unknownToken : CalcErr
  /-- The slippage check rejected the trade. -/
  | slippageExceeded : CalcErr
  /-- CalculatePathOutput: hop i failed, wrapping the hop's error. -/
  | hopFailed : Nat → CalcErr → CalcErr
  /-- CalculatePathOutput: final carried token differs from tokenOut. -/
  | finalTokenMismatch : CalcErr
  deriving Repr, DecidableEq

/-- The shared constant-product arithmetic of every CalculateOutput variant
(internal/aggregator/price_calculator.go lines 31-54): zero-reserve guard,
then amountOut = (reserveOut * amountIn * 997) / (reserveIn * 1000 +
amountIn * 997) in exact integers, with the zero-denominator guard. -/
def calcFromReserves (reserveIn reserveOut amountIn : Int) : Except CalcErr Int :=
  if reserveIn = 0 ∨ reserveOut = 0 then .ok 0
  else
    let amountInWithFee := amountIn * 997
    let numerator := reserveOut * amountInWithFee
    let denominator := reserveIn * 1000 + amountInWithFee
    if denominator = 0 then .ok 0
    else .ok (numerator / denominator)

/-- Single-hop output (internal/aggregator/price_calculator.go,
PriceCalculator.CalculateOutput, lines 17-55): orient the reserves by the
input token, error if the token matches neither pool token. -/
def CalculateOutput (pool : Pool) (amountIn : Int) (tokenIn : String) :
    Except CalcErr Int :=
  if pool.token0.address = tokenIn then
    calcFromReserves pool.reserve0 pool.reserve1 amountIn
  else if pool.token1.address = tokenIn then
    calcFromReserves pool.reserve1 pool.reserve0 amountIn
  else .error .unknownToken

/-- The slippage-guarded core of src/unnamed/part_006 CalculateOutput
(lines 46-74): zero-reserve guard, slippage check, then the shared
formula.  The slippage check itself (checkSlippageWithLimit) is computed
with big.Float / float64 arithmetic in the source; it is abstracted here
as a Boolean-valued parameter taking (reserveIn, reserveOut, amountIn). -/
def calcCheckedFromReserves (slippageOk : Int → Int → Int → Bool)
    (reserveIn reserveOut amountIn : Int) : Except CalcErr Int :=
  if reserveIn = 0 ∨ reserveOut = 0 then .ok 0
  else if ¬ slippageOk reserveIn reserveOut amountIn then .error .slippageExceeded
  else
    let amountInWithFee := amountIn * 997
    let numerator := reserveOut * amountInWithFee
    let denominator := reserveIn * 1000 + amountInWithFee
    if denominator = 0 then .ok 0
    else .ok (numerator / denominator)

/-- Go strings.ToLower, embedded as per-character lowercasing of the
string's characters. -/
def strToLower (s : String) : String := String.mk (s.data.map Char.toLower)

/-- Single-hop output with slippage guard (src/unnamed/part_006,
PriceCalculator.CalculateOutput, lines 23-75): token addresses are
lowercased (strings.ToLower) before matching. -/
def CalculateOutputChecked (slippageOk : Int → Int → Int → Bool)
    (pool : Pool) (amountIn : Int) (tokenIn : String) : Except CalcErr Int :=
  let poolToken0 := strToLower pool.token0.address
  let poolToken1 := strToLower pool.token1.address
  let tokenInLower := strToLower tokenIn
  if poolToken0 = tokenInLower then
    calcCheckedFromReserves slippageOk pool.reserve0 pool.reserve1 amountIn
  else if poolToken1 = tokenInLower then
    calcCheckedFromReserves slippageOk pool.reserve1 pool.reserve0 amountIn
  else .error .unknownToken

/-- The loop body of CalculatePathOutput
(internal/aggregator/price_calculator.go lines 66-99): evaluate the hop,
derive the next carried token from the pool's token pair, and at the last
pool require the carried token to equal tokenOut. -/
def pathLoop (tokenOut : String) :
    List Pool → String → Int → Nat → Except CalcErr Int
  | [], _, currentAmount, _ => .ok currentAmount
  | pool :: rest, currentToken, currentAmount, i =>
    match CalculateOutput pool currentAmount currentToken with
    | .error e => .error (.hopFailed i e)
    | .ok amountOut =>
      let nextToken :=
        if pool.token0.address = currentToken then pool.token1.address
        else pool.token0.address
      match rest with
      | [] =>
        if nextToken = tokenOut then .ok amountOut
        else .error .finalTokenMismatch
      | _ :: _ => pathLoop tokenOut rest nextToken amountOut (i + 1)

/-- Multi-hop output (internal/aggregator/price_calculator.go,
PriceCalculator.CalculatePathOutput, lines 58-102): empty pool list yields
0; otherwise the hops are evaluated in sequence carrying
(currentToken, currentAmount) forward. -/
def CalculatePathOutput (pools : List Pool) (amountIn : Int)
    (tokenIn tokenOut : String) : Except CalcErr Int :=
  match pools with
  | [] => .ok 0
  | _ :: _ => pathLoop tokenOut pools tokenIn amountIn 0

/-- The token carried out of one hop, when the carried input token is
present in the pool; none otherwise.  Mirrors the orientation switch of
CalculatePathOutput combined with CalculateOutput's membership test. -/
def hopNext (pool : Pool) (tok : String) : Option String :=
  if pool.token0.address = tok then some pool.token1.address
  else if pool.token1.address = tok then some pool.token0.address
  else none

/-- The token carried after traversing all pools in sequence, when every
hop's input token is present in its pool; none otherwise. -/
def carriedFinal : List Pool → String → Option String
  | [], tok => some tok
  | pool :: rest, tok =>
    match hopNext pool tok with
    | none => none
    | some t => carriedFinal rest t

/-! ### Arithmetic helper lemmas for the constant-product formula -/

/-- Cross-multiplication monotonicity of Euclidean division: with positive
denominators and a non-negative first numerator, p * s ≤ r * q implies
p / q ≤ r / s. -/
theorem ediv_le_ediv_cross {p q r s : Int} (hq : 0 < q) (hs : 0 < s)
    (h : p * s ≤ r * q) : p / q ≤ r / s := by
  rw [Int.le_ediv_iff_mul_le hs]
  have h1 : p / q * q ≤ p := Int.ediv_mul_le p (ne_of_gt hq)
  have h2 : p / q * q * s ≤ p * s := by
    exact mul_le_mul_of_nonneg_right h1 (le_of_lt hs)
  have h3 : p / q * s * q ≤ r * q := by nlinarith
  exact le_of_mul_le_mul_right h3 hq

/-! ### C1: single-hop output formula -/

/-- C1.  Single-hop output: for a pool whose (lowercased) input token
matches token0 or token1, with both reserves strictly positive and the
slippage check passing, CalculateOutputChecked returns exactly
floor(reserveOut * (amountIn * 997) / (reserveIn * 1000 + amountIn * 997))
in exact integers; and if either reserve is zero it returns 0 with no
error.  Both orientations are covered; the divisions are Euclidean, hence
floor, because the denominators are positive. -/
theorem c1_single_hop_output (slippageOk : Int → Int → Int → Bool)
    (pool : Pool) (amountIn : Int) (tokenIn : String) (ha : 0 ≤ amountIn) :
    (strToLower pool.token0.address = strToLower tokenIn →
      ((0 < pool.reserve0 → 0 < pool.reserve1 →
        slippageOk pool.reserve0 pool.reserve1 amountIn = true →
        CalculateOutputChecked slippageOk pool amountIn tokenIn =
          .ok (pool.reserve1 * (amountIn * 997) /
               (pool.reserve0 * 1000 + amountIn * 997))) ∧
       (pool.reserve0 = 0 ∨ pool.reserve1 = 0 →
        CalculateOutputChecked slippageOk pool amountIn tokenIn = .ok 0))) ∧
    (strToLower pool.token0.address ≠ strToLower tokenIn →
     strToLower pool.token1.address = strToLower tokenIn →
      ((0 < pool.reserve0 → 0 < pool.reserve1 →
        slippageOk pool.reserve1 pool.reserve0 amountIn = true →
        CalculateOutputChecked slippageOk pool amountIn tokenIn =
          .ok (pool.reserve0 * (amountIn * 997) /
               (pool.reserve1 * 1000 + amountIn * 997))) ∧
       (pool.reserve0 = 0 ∨ pool.reserve1 = 0 →
        CalculateOutputChecked slippageOk pool amountIn tokenIn = .ok 0))) := by
  constructor
  · intro h0
    constructor
    · intro hr0 hr1 hs
      have hden : pool.reserve0 * 1000 + amountIn * 997 ≠ 0 := by nlinarith
      simp [CalculateOutputChecked, calcCheckedFromReserves, h0,
        ne_of_gt hr0, ne_of_gt hr1, hs, hden]
    · intro hz
      rcases hz with hz | hz <;>
        simp [CalculateOutputChecked, calcCheckedFromReserves, h0, hz]
  · intro h0 h1
    constructor
    · intro hr0 hr1 hs
      have hden : pool.reserve1 * 1000 + amountIn * 997 ≠ 0 := by nlinarith
      simp [CalculateOutputChecked, calcCheckedFromReserves, h0, h1,
        ne_of_gt hr0, ne_of_gt hr1, hs, hden]
    · intro hz
      rcases hz with hz | hz <;>
        simp [CalculateOutputChecked, calcCheckedFromReserves, h0, h1, hz]

/-- A sample pool used by the witnesses: 0xaaa/0xbbb with reserves
100 and 200. -/
def samplePool : Pool :=
  { address := "0xpool1", exchange := "uniswap v2", version := "2",
    token0 := { address := "0xaaa", symbol := "AAA", decimals := 18 },
    token1 := { address := "0xbbb", symbol := "BBB", decimals := 18 },
    reserve0 := 100, reserve1 := 200, fee := 3, lastUpdated := "t0" }

/-- A slippage predicate that always passes, for witnesses. -/
def slippageAlwaysOk : Int → Int → Int → Bool := fun _ _ _ => true

/-- Witness for c1_single_hop_output at a concrete pool and amount. -/
theorem c1_single_hop_output_witness :
    CalculateOutputChecked slippageAlwaysOk samplePool 10 "0xaaa" =
      .ok (200 * (10 * 997) / (100 * 1000 + 10 * 997)) :=
  ((c1_single_hop_output slippageAlwaysOk samplePool 10 "0xaaa"
      (by decide)).1 (by decide)).1 (by decide) (by decide) (by decide)

/-! ### C7: monotonicity in the input amount -/

/-- The successful value of the slippage-guarded core with positive
reserves and non-negative input is exactly the constant-product
formula. -/
theorem calcCheckedFromReserves_ok_val (slippageOk : Int → Int → Int → Bool)
    {rin rout a v : Int} (hin : 0 < rin) (hout : 0 < rout) (ha : 0 ≤ a)
    (h : calcCheckedFromReserves slippageOk rin rout a = .ok v) :
    v = rout * (a * 997) / (rin * 1000 + a * 997) := by
  have hden : rin * 1000 + a * 997 ≠ 0 := by nlinarith
  unfold calcCheckedFromReserves at h
  rw [if_neg (by push_neg; exact ⟨ne_of_gt hin, ne_of_gt hout⟩)] at h
  by_cases hs : slippageOk rin rout a = true
  · rw [if_neg (not_not_intro hs)] at h
    simp only [if_neg hden] at h
    injection h with h
    exact h.symm
  · rw [if_pos hs] at h
    exact Except.noConfusion h

/-- C7.  Calculator monotonicity: for a fixed pool with strictly positive
reserves, whenever the slippage-guarded single-hop calculation succeeds at
amounts 0 ≤ a1 ≤ a2 with outputs v1 and v2, then v1 ≤ v2. -/
theorem c7_calculator_monotone (slippageOk : Int → Int → Int → Bool)
    (pool : Pool) (tokenIn : String) (a1 a2 v1 v2 : Int)
    (hr0 : 0 < pool.reserve0) (hr1 : 0 < pool.reserve1)
    (ha1 : 0 ≤ a1) (h12 : a1 ≤ a2)
    (h1 : CalculateOutputChecked slippageOk pool a1 tokenIn = .ok v1)
    (h2 : CalculateOutputChecked slippageOk pool a2 tokenIn = .ok v2) :
    v1 ≤ v2 := by
  have ha2 : 0 ≤ a2 := le_trans ha1 h12
  by_cases hm0 : strToLower pool.token0.address = strToLower tokenIn
  · have e1 : calcCheckedFromReserves slippageOk pool.reserve0 pool.reserve1 a1 = .ok v1 := by
      rw [CalculateOutputChecked, if_pos hm0] at h1; exact h1
    have e2 : calcCheckedFromReserves slippageOk pool.reserve0 pool.reserve1 a2 = .ok v2 := by
      rw [CalculateOutputChecked, if_pos hm0] at h2; exact h2
    have hv1 := calcCheckedFromReserves_ok_val slippageOk hr0 hr1 ha1 e1
    have hv2 := calcCheckedFromReserves_ok_val slippageOk hr0 hr1 ha2 e2
    have hden1 : (0:Int) < pool.reserve0 * 1000 + a1 * 997 := by nlinarith
    have hden2 : (0:Int) < pool.reserve0 * 1000 + a2 * 997 := by nlinarith
    rw [hv1, hv2]
    refine ediv_le_ediv_cross hden1 hden2 ?_
    nlinarith [mul_nonneg (mul_nonneg hr0.le hr1.le) (sub_nonneg.mpr h12)]
  · by_cases hm1 : strToLower pool.token1.address = strToLower tokenIn
    · have e1 : calcCheckedFromReserves slippageOk pool.reserve1 pool.reserve0 a1 = .ok v1 := by
        rw [CalculateOutputChecked, if_neg hm0, if_pos hm1] at h1; exact h1
      have e2 : calcCheckedFromReserves slippageOk pool.reserve1 pool.reserve0 a2 = .ok v2 := by
        rw [CalculateOutputChecked, if_neg hm0, if_pos hm1] at h2; exact h2
      have hv1 := calcCheckedFromReserves_ok_val slippageOk hr1 hr0 ha1 e1
      have hv2 := calcCheckedFromReserves_ok_val slippageOk hr1 hr0 ha2 e2
      have hden1 : (0:Int) < pool.reserve1 * 1000 + a1 * 997 := by nlinarith
      have hden2 : (0:Int) < pool.reserve1 * 1000 + a2 * 997 := by nlinarith
      rw [hv1, hv2]
      refine ediv_le_ediv_cross hden1 hden2 ?_
      nlinarith [mul_nonneg (mul_nonneg hr1.le hr0.le) (sub_nonneg.mpr h12)]
    · rw [CalculateOutputChecked, if_neg hm0, if_neg hm1] at h1
      exact Except.noConfusion h1

/-- Witness for c7_calculator_monotone at concrete amounts 10 ≤ 20. -/
theorem c7_calculator_monotone_witness :
    CalculateOutputChecked slippageAlwaysOk samplePool 10 "0xaaa" = .ok 18 ∧
    CalculateOutputChecked slippageAlwaysOk samplePool 20 "0xaaa" = .ok 33 ∧
    (18:Int) ≤ 33 :=
  ⟨rfl, rfl,
    c7_calculator_monotone slippageAlwaysOk samplePool "0xaaa" 10 20 18 33
      (by decide) (by decide) (by decide) (by decide) rfl rfl⟩

/-! ### C10: output bound -/

/-- C10.  Implicit output bound: with both reserves strictly positive and
amountIn ≥ 0, a successful CalculateOutput result r satisfies
0 ≤ r < reserveOut for the matching orientation. -/
theorem c10_output_bound (pool : Pool) (amountIn : Int) (tokenIn : String)
    (r : Int) (hr0 : 0 < pool.reserve0) (hr1 : 0 < pool.reserve1)
    (ha : 0 ≤ amountIn)
    (h : CalculateOutput pool amountIn tokenIn = .ok r) :
    (pool.token0.address = tokenIn → 0 ≤ r ∧ r < pool.reserve1) ∧
    (pool.token0.address ≠ tokenIn → pool.token1.address = tokenIn →
      0 ≤ r ∧ r < pool.reserve0) := by
  unfold CalculateOutput calcFromReserves at h
  constructor
  · intro hm0
    rw [if_pos hm0] at h
    have hden : (0:Int) < pool.reserve0 * 1000 + amountIn * 997 := by nlinarith
    rw [if_neg (by push_neg; exact ⟨ne_of_gt hr0, ne_of_gt hr1⟩),
      if_neg (ne_of_gt hden)] at h
    injection h with h
    subst h
    refine ⟨Int.ediv_nonneg (by nlinarith) (le_of_lt hden), ?_⟩
    rw [Int.ediv_lt_iff_lt_mul hden]
    nlinarith
  · intro hm0 hm1
    rw [if_neg hm0, if_pos hm1] at h
    have hden : (0:Int) < pool.reserve1 * 1000 + amountIn * 997 := by nlinarith
    rw [if_neg (by push_neg; exact ⟨ne_of_gt hr1, ne_of_gt hr0⟩),
      if_neg (ne_of_gt hden)] at h
    injection h with h
    subst h
    refine ⟨Int.ediv_nonneg (by nlinarith) (le_of_lt hden), ?_⟩
    rw [Int.ediv_lt_iff_lt_mul hden]
    nlinarith

/-- Witness for c10_output_bound at a concrete pool and amount. -/
theorem c10_output_bound_witness :
    CalculateOutput samplePool 10 "0xaaa" = .ok 18 ∧
    (0:Int) ≤ 18 ∧ (18:Int) < 200 :=
  ⟨rfl, by
    have := (c10_output_bound samplePool 10 "0xaaa" 18 (by decide) (by decide)
      (by decide) rfl).1 (by decide)
    exact ⟨this.1, this.2⟩⟩

/-! ### C5: multi-hop evaluation -/

/-- With the input token present in the pool, CalculateOutput never
errors: every branch after the orientation switch returns a value. -/
theorem calcFromReserves_isOk (rin rout a : Int) :
    ∃ w, calcFromReserves rin rout a = .ok w := by
  unfold calcFromReserves
  split
  · exact ⟨0, rfl⟩
  · dsimp only
    split
    · exact ⟨0, rfl⟩
    · exact ⟨_, rfl⟩

/-- One-step unfolding of the CalculatePathOutput loop. -/
theorem pathLoop_cons (tout : String) (p : Pool) (rest : List Pool)
    (tok : String) (amt : Int) (i : Nat) :
    pathLoop tout (p :: rest) tok amt i =
      match CalculateOutput p amt tok with
      | .error e => .error (.hopFailed i e)
      | .ok amountOut =>
        let nextToken :=
          if p.token0.address = tok then p.token1.address
          else p.token0.address
        match rest with
        | [] =>
          if nextToken = tout then .ok amountOut
          else .error .finalTokenMismatch
        | _ :: _ => pathLoop tout rest nextToken amountOut (i + 1) := rfl

/-- The loop succeeds exactly when every hop's carried input token is
present in its pool and the final carried token is tokenOut. -/
theorem pathLoop_ok_iff (tout : String) : ∀ (pools : List Pool)
    (tok : String) (amt : Int) (i : Nat), pools ≠ [] →
    ((∃ v, pathLoop tout pools tok amt i = .ok v) ↔
      carriedFinal pools tok = some tout) := by
  intro pools
  induction pools with
  | nil => intro tok amt i h; exact absurd rfl h
  | cons p rest ih =>
    intro tok amt i _
    by_cases hm0 : p.token0.address = tok
    · obtain ⟨w, hw⟩ := calcFromReserves_isOk p.reserve0 p.reserve1 amt
      have hco : CalculateOutput p amt tok = .ok w := by
        rw [CalculateOutput, if_pos hm0]; exact hw
      rw [pathLoop_cons, hco]
      cases rest with
      | nil =>
        simp only [carriedFinal, hopNext, if_pos hm0]
        constructor
        · rintro ⟨v, hv⟩
          by_cases ht : p.token1.address = tout
          · rw [ht]
          · rw [if_neg (by simpa [hm0] using ht)] at hv
            exact Except.noConfusion hv
        · intro ht
          injection ht with ht
          exact ⟨w, by rw [if_pos (by simpa [hm0] using ht)]⟩
      | cons q qs =>
        simp only [carriedFinal, hopNext, if_pos hm0]
        exact ih p.token1.address w (i + 1) (by simp)
    · by_cases hm1 : p.token1.address = tok
      · obtain ⟨w, hw⟩ := calcFromReserves_isOk p.reserve1 p.reserve0 amt
        have hco : CalculateOutput p amt tok = .ok w := by
          rw [CalculateOutput, if_neg hm0, if_pos hm1]; exact hw
        rw [pathLoop_cons, hco]
        cases rest with
        | nil =>
          simp only [carriedFinal, hopNext, if_neg hm0, if_pos hm1]
          constructor
          · rintro ⟨v, hv⟩
            by_cases ht : p.token0.address = tout
            · rw [ht]
            · rw [if_neg (by simpa [hm0] using ht)] at hv
              exact Except.noConfusion hv
          · intro ht
            injection ht with ht
            exact ⟨w, by rw [if_pos (by simpa [hm0] using ht)]⟩
        | cons q qs =>
          simp only [carriedFinal, hopNext, if_neg hm0, if_pos hm1]
          exact ih p.token0.address w (i + 1) (by simp)
      · have hco : CalculateOutput p amt tok = .error .unknownToken := by
          rw [CalculateOutput, if_neg hm0, if_neg hm1]
        rw [pathLoop_cons, hco]
        simp only [carriedFinal, hopNext, if_neg hm0, if_neg hm1]
        constructor
        · rintro ⟨v, hv⟩; exact Except.noConfusion hv
        · intro ht; exact Option.noConfusion ht

/-- C5.  Multi-hop evaluation: the empty pool list returns 0 with no
error; for a non-empty pool list CalculatePathOutput succeeds exactly when
every hop's carried input token is present in its pool and the carried
token after the final hop equals tokenOut — hence it errors exactly when
some hop's input token is missing from its pool or the final carried token
differs from tokenOut. -/
theorem c5_path_output (pools : List Pool) (amountIn : Int)
    (tokenIn tokenOut : String) :
    CalculatePathOutput [] amountIn tokenIn tokenOut = .ok 0 ∧
    (pools ≠ [] →
      ((∃ v, CalculatePathOutput pools amountIn tokenIn tokenOut = .ok v) ↔
        carriedFinal pools tokenIn = some tokenOut)) := by
  constructor
  · rfl
  · intro hne
    cases pools with
    | nil => exact absurd rfl hne
    | cons p rest =>
      exact pathLoop_ok_iff tokenOut (p :: rest) tokenIn amountIn 0 (by simp)

/-- Witness for c5_path_output: a one-hop path through the sample pool
from 0xaaa to 0xbbb. -/
theorem c5_path_output_witness :
    CalculatePathOutput [] 10 "0xaaa" "0xbbb" = .ok 0 ∧
    (∃ v, CalculatePathOutput [samplePool] 10 "0xaaa" "0xbbb" = .ok v) :=
  ⟨(c5_path_output [samplePool] 10 "0xaaa" "0xbbb").1,
    ((c5_path_output [samplePool] 10 "0xaaa" "0xbbb").2 (by simp)).mpr rfl⟩

/-! ### Path finder (src/unnamed/part_011, FindBestPaths lines 638-770)

The Go implementation keeps a max-heap of pathState values ordered by
amountOut, a bestAmountPerToken map for pruning, and a growing bestPaths
list.  The heap is embedded as a list with a max-extraction function, the
map as a function String to Option Int, and the loop as fuel-indexed
recursion (the recursion is bounded in Go because every push strictly
raises the best-known amount of its target token over a finite state
space; the theorems below hold for every fuel). -/

/-- A state in the priority queue (src/unnamed/part_011, pathState). -/
structure PathState where
  path : List Pool
  amountOut : Int
  lastToken : String
  deriving Repr, DecidableEq

/-- The bestAmountPerToken pruning map. -/
def BestMap : Type := String → Option Int

/-- Point update of the pruning map. -/
def updBest (b : BestMap) (t : String) (v : Int) : BestMap :=
  fun u => if u = t then some v else b u

/-- The graph snapshot consumed by FindBestPaths: adj distinguishes an
absent token (Go nil map) from one with neighbors, and poolMap lists the
pools on each directed edge in insertion order. -/
structure SearchGraph where
  adj : String → Option (List String)
  poolMap : String → String → List Pool

/-- Neighbor enumeration; ranging over a nil Go map yields nothing. -/
def neighborsOf (g : SearchGraph) (t : String) : List String :=
  (g.adj t).getD []

/-- Loop-avoidance check (src/unnamed/part_011, pathContainsToken lines
773-782): the candidate token already occurs as a lowercased endpoint of
some pool of the path. -/
def pathContainsToken (path : List Pool) (token : String) : Bool :=
  path.any fun pool =>
    strToLower pool.token0.address == token ||
    strToLower pool.token1.address == token

/-- One relaxation candidate of the expansion loop (src/unnamed/part_011
lines 740-764): simulate the hop, skip errors and non-positive outputs,
and enqueue the successor only when its output strictly exceeds the
best-known amount for the next token (or no amount is known), updating
the map. -/
def relaxCandidate (st : PathState) (nextHopToken : String) (pool : Pool)
    (acc : List PathState × BestMap) : List PathState × BestMap :=
  match CalculateOutput pool st.amountOut st.lastToken with
  | .error _ => acc
  | .ok v =>
    if v ≤ 0 then acc
    else
      match acc.2 nextHopToken with
      | none =>
        (acc.1 ++ [⟨st.path ++ [pool], v, nextHopToken⟩],
          updBest acc.2 nextHopToken v)
      | some bv =>
        if bv < v then
          (acc.1 ++ [⟨st.path ++ [pool], v, nextHopToken⟩],
            updBest acc.2 nextHopToken v)
        else acc

/-- Expansion of a popped state (src/unnamed/part_011 lines 727-765):
visit every neighbor of the last token that does not reintroduce a
visited token, and every pool on that edge. -/
def expandState (g : SearchGraph) (st : PathState)
    (acc : List PathState × BestMap) : List PathState × BestMap :=
  (neighborsOf g st.lastToken).foldl
    (fun acc nextHopToken =>
      if pathContainsToken st.path nextHopToken then acc
      else
        (g.poolMap st.lastToken nextHopToken).foldl
          (fun acc pool => relaxCandidate st nextHopToken pool acc) acc)
    acc

/-- One first-hop seeding candidate (src/unnamed/part_011 lines
682-699): simulate the first hop; skip errors and non-positive outputs;
enqueue the surviving single-pool state unconditionally and raise the
best-known map where the output improves it. -/
def seedCandidate (tokenIn : String) (amountIn : Int)
    (neighborToken : String) (pool : Pool)
    (acc : List PathState × BestMap) : List PathState × BestMap :=
  match CalculateOutput pool amountIn tokenIn with
  | .error _ => acc
  | .ok v =>
    if v ≤ 0 then acc
    else
      let q := acc.1 ++ [⟨[pool], v, neighborToken⟩]
      match acc.2 neighborToken with
      | none => (q, updBest acc.2 neighborToken v)
      | some bv =>
        if bv < v then (q, updBest acc.2 neighborToken v)
        else (q, acc.2)

/-- First-hop seeding (src/unnamed/part_011 lines 679-700): every pool
between tokenIn and each neighbor is a seeding candidate. -/
def seedStates (g : SearchGraph) (tokenIn : String) (amountIn : Int) :
    List PathState × BestMap :=
  (neighborsOf g tokenIn).foldl
    (fun acc neighborToken =>
      (g.poolMap tokenIn neighborToken).foldl
        (fun acc pool => seedCandidate tokenIn amountIn neighborToken pool acc)
        acc)
    ([], fun _ => none)

/-- Extraction of a maximal-amountOut state, embedding heap.Pop on the
max-heap ordered by amountOut (ties resolved deterministically). -/
def popMax : List PathState → Option (PathState × List PathState)
  | [] => none
  | s :: rest =>
    match popMax rest with
    | none => some (s, [])
    | some (m, r) =>
      if s.amountOut < m.amountOut then some (m, s :: r) else some (s, rest)

/-- The pruning test applied to a popped state (src/unnamed/part_011
lines 709-713): discard when a strictly larger output for its last token
is already known. -/
def prunedByBest (best : BestMap) (st : PathState) : Bool :=
  match best st.lastToken with
  | some b => decide (st.amountOut < b)
  | none => false

/-- The Dijkstra-style search loop (src/unnamed/part_011 lines 703-766):
while the queue is non-empty and fewer than maxPaths terminal paths have
been collected, pop the best state, discard it if pruned, record it if it
reached tokenOut, drop it if the hop limit is reached, and otherwise
expand it. -/
def searchLoop (g : SearchGraph) (tokenOut : String)
    (maxHops maxPaths : Nat) :
    Nat → List PathState → BestMap → List (List Pool) → List (List Pool)
  | 0, _, _, results => results
  | fuel + 1, queue, best, results =>
    if maxPaths ≤ results.length then results
    else
      match popMax queue with
      | none => results
      | some (st, rest) =>
        if prunedByBest best st then
          searchLoop g tokenOut maxHops maxPaths fuel rest best results
        else if st.lastToken = tokenOut then
          searchLoop g tokenOut maxHops maxPaths fuel rest best
            (results ++ [st.path])
        else if maxHops ≤ st.path.length then
          searchLoop g tokenOut maxHops maxPaths fuel rest best results
        else
          let expanded := expandState g st (rest, best)
          searchLoop g tokenOut maxHops maxPaths fuel expanded.1 expanded.2
            results

/-- FindBestPaths (src/unnamed/part_011 lines 638-770): normalize the
endpoint tokens, default a zero maxHops to the finder's configured bound,
return an empty list when either endpoint is absent from adj, and run the
seeded search.  The fuel argument bounds the loop iterations; the Go loop
needs no bound because its pushes strictly raise best-known amounts over
a finite state space. -/
def FindBestPaths (g : SearchGraph) (pfMaxHops : Nat)
    (tokenIn tokenOut : String) (amountIn : Int)
    (maxHops maxPaths fuel : Nat) : List (List Pool) :=
  let mh := if maxHops = 0 then pfMaxHops else maxHops
  let tin := strToLower tokenIn
  let tout := strToLower tokenOut
  match g.adj tin with
  | none => []
  | some _ =>
    match g.adj tout with
    | none => []
    | some _ =>
      let seeded := seedStates g tin amountIn
      searchLoop g tout mh maxPaths fuel seeded.1 seeded.2 []

/-! ### Router (src/internal/aggregator/price_calculator.go, second
revision: Router, lines 120-348) -/

/-- Router-level error outcomes of GetBestQuote. -/
inductive QuoteErr where
  /-- fmt.Errorf("no valid path found"): the finder returned no candidate. -/
  | noPath : QuoteErr
  /-- fmt.Errorf("no valid path with positive output found"). -/
  | noViableQuote : QuoteErr
  deriving Repr, DecidableEq

/-- Gas estimation (Router.estimateGasCost): 21000 base plus a
per-exchange table keyed by the lowercased exchange name. -/
def estimateGasCost (path : List Pool) : Int :=
  21000 + path.foldl
    (fun swapGas pool =>
      swapGas +
        (if strToLower pool.exchange = "uniswap v2" then 100000
         else if strToLower pool.exchange = "sushiswap" then 120000
         else 110000))
    0

/-- Router.getDexesFromPath: the exchange name of each pool. -/
def getDexesFromPath (path : List Pool) : List String :=
  path.map fun pool => pool.exchange

/-- One worker of calculatePathsConcurrently (lines 234-278): recompute
the multi-hop output; on error or non-positive output emit nothing,
otherwise emit the TradePath. -/
def evalCandidate (amountIn : Int) (tokenIn tokenOut : String)
    (p : List Pool) : Option TradePath :=
  match CalculatePathOutput p amountIn tokenIn tokenOut with
  | .error _ => none
  | .ok amountOut =>
    if amountOut ≤ 0 then none
    else some ⟨p, amountOut, getDexesFromPath p, estimateGasCost p⟩

/-- Router.calculatePathsConcurrently (lines 225-302): the bounded worker
pool evaluates every candidate and collects exactly the successful
emissions (calculation errors are counted and logged, never surfaced);
embedded in candidate submission order. -/
def calculatePathsConcurrently (paths : List (List Pool)) (amountIn : Int)
    (tokenIn tokenOut : String) : List TradePath :=
  paths.filterMap (evalCandidate amountIn tokenIn tokenOut)

/-- Router.findOptimalPath (lines 305-318): sort by amountOut descending
and return the head, i.e. an element of maximal amountOut (the first
maximal one, matching a stable choice among the sort's maxima). -/
def findOptimalPath : List TradePath → Option TradePath
  | [] => none
  | t :: ts =>
    some (ts.foldl (fun bestPath tp =>
      if bestPath.amountOut < tp.amountOut then tp else bestPath) t)

/-- Router.GetBestQuote from the finder's candidate list onward (lines
192-222): no candidates fails noPath; no surviving trade path fails
noViableQuote; otherwise the response carries the trade paths, the
optimal path, its amount and its gas cost.  Wall-clock processing time
is not modelled and embedded as 0. -/
def GetBestQuoteFromPaths (paths : List (List Pool)) (amountIn : Int)
    (tokenIn tokenOut : String) : Except QuoteErr QuoteResponse :=
  if paths = [] then .error .noPath
  else
    let tradePaths := calculatePathsConcurrently paths amountIn tokenIn tokenOut
    match findOptimalPath tradePaths with
    | none => .error .noViableQuote
    | some bestPath =>
      .ok ⟨bestPath.amountOut, tradePaths, some bestPath, bestPath.gasCost, 0⟩

/-- Router.GetBestQuote (lines 141-222): lowercase the endpoints, default
maxHops to 3, pick maxPaths by request size (10 above 10^18, else 20),
run the finder, and evaluate the candidates. -/
def GetBestQuote (g : SearchGraph) (pfMaxHops : Nat) (req : QuoteRequest)
    (fuel : Nat) : Except QuoteErr QuoteResponse :=
  let tokenIn := strToLower req.tokenIn
  let tokenOut := strToLower req.tokenOut
  let mh : Int := if req.maxHops = 0 then 3 else req.maxHops
  let maxPaths : Nat := if 1000000000000000000 < req.amountIn then 10 else 20
  let paths := FindBestPaths g pfMaxHops req.tokenIn req.tokenOut req.amountIn
    mh.toNat maxPaths fuel
  GetBestQuoteFromPaths paths req.amountIn tokenIn tokenOut

/-! ### C3: path-finder pruning and termination -/

/-- One-step unfolding of the search loop at positive fuel. -/
theorem searchLoop_succ (g : SearchGraph) (tokenOut : String)
    (maxHops maxPaths fuel : Nat) (queue : List PathState) (best : BestMap)
    (results : List (List Pool)) :
    searchLoop g tokenOut maxHops maxPaths (fuel + 1) queue best results =
      (if maxPaths ≤ results.length then results
       else
        match popMax queue with
        | none => results
        | some (st, rest) =>
          if prunedByBest best st then
            searchLoop g tokenOut maxHops maxPaths fuel rest best results
          else if st.lastToken = tokenOut then
            searchLoop g tokenOut maxHops maxPaths fuel rest best
              (results ++ [st.path])
          else if maxHops ≤ st.path.length then
            searchLoop g tokenOut maxHops maxPaths fuel rest best results
          else
            let expanded := expandState g st (rest, best)
            searchLoop g tokenOut maxHops maxPaths fuel expanded.1 expanded.2
              results) := rfl

/-- The search loop never grows the result list beyond maxPaths. -/
theorem searchLoop_length_le (g : SearchGraph) (tokenOut : String)
    (maxHops maxPaths : Nat) : ∀ (fuel : Nat) (queue : List PathState)
    (best : BestMap) (results : List (List Pool)),
    results.length ≤ maxPaths →
    (searchLoop g tokenOut maxHops maxPaths fuel queue best results).length ≤
      maxPaths := by
  intro fuel
  induction fuel with
  | zero => intro queue best results h; exact h
  | succ n ih =>
    intro queue best results h
    rw [searchLoop_succ]
    by_cases hle : maxPaths ≤ results.length
    · rw [if_pos hle]; exact h
    · rw [if_neg hle]
      have hlt : results.length < maxPaths := lt_of_not_le hle
      cases hpop : popMax queue with
      | none => exact h
      | some pr =>
        obtain ⟨st, rest⟩ := pr
        dsimp only
        by_cases hpr : prunedByBest best st
        · rw [if_pos hpr]; exact ih rest best results h
        · rw [if_neg hpr]
          by_cases hterm : st.lastToken = tokenOut
          · rw [if_pos hterm]
            exact ih rest best (results ++ [st.path]) (by
              simpa using Nat.succ_le_of_lt hlt)
          · rw [if_neg hterm]
            by_cases hhop : maxHops ≤ st.path.length
            · rw [if_pos hhop]; exact ih rest best results h
            · rw [if_neg hhop]
              exact ih (expandState g st (rest, best)).1
                (expandState g st (rest, best)).2 results h

/-- FindBestPaths returns at most maxPaths paths, for any fuel. -/
theorem FindBestPaths_length_le (g : SearchGraph) (pfMaxHops : Nat)
    (tokenIn tokenOut : String) (amountIn : Int)
    (maxHops maxPaths fuel : Nat) :
    (FindBestPaths g pfMaxHops tokenIn tokenOut amountIn maxHops maxPaths
      fuel).length ≤ maxPaths := by
  unfold FindBestPaths
  cases h1 : g.adj (strToLower tokenIn) with
  | none => simp [h1]
  | some l1 =>
    cases h2 : g.adj (strToLower tokenOut) with
    | none => simp [h1, h2]
    | some l2 =>
      simp only [h1, h2]
      exact searchLoop_length_le g (strToLower tokenOut) _ maxPaths fuel _ _ []
        (by simp)

/-- C3.  Path-finder pruning and termination, as a conjunction over the
embedded search: (i) the loop stops with the accumulated results when the
queue is empty; (ii) it stops once maxPaths terminal paths have been
collected; (iii) a popped state whose output is strictly below the
best-known amount of its last token is discarded, the loop continuing on
the remaining queue with map and results unchanged; (iv) during expansion
a successor with positive simulated output v is enqueued exactly when v
strictly exceeds the best-known amount of the next token (0 when absent),
in which case the best-known amount becomes v; (v) consequently
FindBestPaths returns at most maxPaths paths. -/
theorem c3_pruning_and_termination (g : SearchGraph) (tokenOut : String)
    (maxHops maxPaths fuel pfMaxHops : Nat) (queue rest : List PathState)
    (best : BestMap) (results : List (List Pool)) (st : PathState)
    (pool : Pool) (nextHopToken tokenIn : String) (amountIn v : Int) :
    (searchLoop g tokenOut maxHops maxPaths (fuel + 1) [] best results =
      results) ∧
    (maxPaths ≤ results.length →
      searchLoop g tokenOut maxHops maxPaths (fuel + 1) queue best results =
        results) ∧
    (results.length < maxPaths → popMax queue = some (st, rest) →
      ∀ b, best st.lastToken = some b → st.amountOut < b →
      searchLoop g tokenOut maxHops maxPaths (fuel + 1) queue best results =
        searchLoop g tokenOut maxHops maxPaths fuel rest best results) ∧
    (0 < v → CalculateOutput pool st.amountOut st.lastToken = .ok v →
      relaxCandidate st nextHopToken pool (queue, best) =
        (if (best nextHopToken).getD 0 < v then
          (queue ++ [⟨st.path ++ [pool], v, nextHopToken⟩],
            updBest best nextHopToken v)
         else (queue, best))) ∧
    ((FindBestPaths g pfMaxHops tokenIn tokenOut amountIn maxHops maxPaths
        fuel).length ≤ maxPaths) := by
  refine ⟨?_, ?_, ?_, ?_,
    FindBestPaths_length_le g pfMaxHops tokenIn tokenOut amountIn maxHops
      maxPaths fuel⟩
  · rw [searchLoop_succ]
    split
    · rfl
    · rfl
  · intro h
    rw [searchLoop_succ, if_pos h]
  · intro hlt hpop b hb hbelow
    have hpr : prunedByBest best st = true := by
      unfold prunedByBest
      rw [hb]
      exact decide_eq_true hbelow
    rw [searchLoop_succ, if_neg (not_le.mpr hlt), hpop]
    dsimp only
    rw [if_pos hpr]
  · intro hv hco
    unfold relaxCandidate
    rw [hco]
    dsimp only
    rw [if_neg (not_le.mpr hv)]
    cases hb : best nextHopToken with
    | none =>
      dsimp only [Option.getD]
      rw [if_pos hv]
    | some bv =>
      dsimp only [Option.getD]

/-- A two-token graph holding just the sample pool, for witnesses. -/
def sampleGraph : SearchGraph :=
  { adj := fun t =>
      if t = "0xaaa" then some ["0xbbb"]
      else if t = "0xbbb" then some ["0xaaa"]
      else none,
    poolMap := fun a b =>
      if (a = "0xaaa" ∧ b = "0xbbb") ∨ (a = "0xbbb" ∧ b = "0xaaa") then
        [samplePool]
      else [] }

/-- Witness for c3_pruning_and_termination: concrete search on the sample
graph, a concrete discarded pop and a concrete relaxation. -/
theorem c3_pruning_and_termination_witness :
    FindBestPaths sampleGraph 3 "0xaaa" "0xbbb" 10 3 5 10 = [[samplePool]] ∧
    (FindBestPaths sampleGraph 3 "0xaaa" "0xbbb" 10 3 5 10).length ≤ 5 ∧
    relaxCandidate ⟨[], 10, "0xaaa"⟩ "0xbbb" samplePool
        ([], fun _ => none) =
      ([⟨[samplePool], 18, "0xbbb"⟩], updBest (fun _ => none) "0xbbb" 18) := by
  refine ⟨rfl, ?_, ?_⟩
  · exact (c3_pruning_and_termination sampleGraph "0xbbb" 3 5 9 3 [] []
      (fun _ => none) [] ⟨[], 10, "0xaaa"⟩ samplePool "0xbbb" "0xaaa"
      10 18).2.2.2.2
  · have h := (c3_pruning_and_termination sampleGraph "0xbbb" 3 5 9 3 [] []
      (fun _ => none) [] ⟨[], 10, "0xaaa"⟩ samplePool "0xbbb" "0xaaa"
      10 18).2.2.2.1 (by decide) rfl
    rw [h]
    rfl

/-! ### C4: structural invariant of returned trade paths

The graph is built by RefreshGraph from the stored pools: a pool is
registered on edge (a, b) exactly when its lowercased token addresses are
a and b, and the stored-pool invariant gives distinct token addresses.
WFGraph captures this about a snapshot. -/

/-- The lowercased token addresses of a pool, the identities under which
the graph and the loop-avoidance check know it. -/
def poolTokens (p : Pool) : List String :=
  [strToLower p.token0.address, strToLower p.token1.address]

/-- The pool sits on the (directed) edge from a to b. -/
def PoolOn (p : Pool) (a b : String) : Prop :=
  (strToLower p.token0.address = a ∧ strToLower p.token1.address = b) ∨
  (strToLower p.token0.address = b ∧ strToLower p.token1.address = a)

/-- Well-formed graph snapshot: pools listed on an edge connect exactly
its two endpoint tokens, and no edge is a self-loop (the data-model
invariant token0.address ≠ token1.address). -/
def WFGraph (g : SearchGraph) : Prop :=
  ∀ a b p, p ∈ g.poolMap a b → PoolOn p a b ∧ a ≠ b

/-- The pools form a chain from the start token through the listed hop
tokens: pool i connects hop token i-1 to hop token i. -/
def ChainPath : String → List Pool → List String → Prop
  | _, [], [] => True
  | t, p :: ps, u :: us => PoolOn p t u ∧ ChainPath u ps us
  | _, [], _ :: _ => False
  | _, _ :: _, [] => False

/-- Search-queue invariant: the state's path chains from tokenIn through
hop tokens ending at lastToken, visiting no token twice. -/
def StateInv (tokenIn : String) (st : PathState) : Prop :=
  ∃ toks, ChainPath tokenIn st.path toks ∧
    toks.getLast? = some st.lastToken ∧ (tokenIn :: toks).Nodup

/-- A structurally valid result path from tokenIn to tokenOut. -/
def GoodPath (tokenIn tokenOut : String) (pools : List Pool) : Prop :=
  ∃ toks, ChainPath tokenIn pools toks ∧
    toks.getLast? = some tokenOut ∧ (tokenIn :: toks).Nodup

/-- Two pools share exactly one (lowercased) token address. -/
def ShareExactlyOne (p q : Pool) : Prop :=
  ∃ t, t ∈ poolTokens p ∧ t ∈ poolTokens q ∧
    ∀ u, u ∈ poolTokens p → u ∈ poolTokens q → u = t

theorem PoolOn.left_mem {p : Pool} {a b : String} (h : PoolOn p a b) :
    a ∈ poolTokens p := by
  rcases h with ⟨h0, h1⟩ | ⟨h0, h1⟩
  · simp [poolTokens, h0]
  · simp [poolTokens, h1]

theorem PoolOn.right_mem {p : Pool} {a b : String} (h : PoolOn p a b) :
    b ∈ poolTokens p := by
  rcases h with ⟨h0, h1⟩ | ⟨h0, h1⟩
  · simp [poolTokens, h1]
  · simp [poolTokens, h0]

theorem PoolOn.mem_elim {p : Pool} {a b x : String} (h : PoolOn p a b)
    (hx : x ∈ poolTokens p) : x = a ∨ x = b := by
  rcases h with ⟨h0, h1⟩ | ⟨h0, h1⟩ <;>
    simp only [poolTokens, List.mem_cons, List.mem_singleton,
      List.not_mem_nil, or_false] at hx <;> rcases hx with hx | hx <;>
      simp [hx, h0, h1]

/-- Appending one pool on the edge from the chain's last token extends
the chain. -/
theorem ChainPath.append_pool {pool : Pool} {nbr : String} :
    ∀ (path : List Pool) (t : String) (toks : List String) (lt : String),
    ChainPath t path toks → toks.getLast? = some lt → PoolOn pool lt nbr →
    ChainPath t (path ++ [pool]) (toks ++ [nbr]) := by
  intro path
  induction path with
  | nil =>
    intro t toks lt hc hl hp
    cases toks with
    | nil => exact Option.noConfusion hl
    | cons u us => exact False.elim hc
  | cons p ps ih =>
    intro t toks lt hc hl hp
    cases toks with
    | nil => exact False.elim hc
    | cons u us =>
      obtain ⟨hpo, hrest⟩ := hc
      cases ps with
      | nil =>
        cases us with
        | nil =>
          have hu : u = lt := by
            simpa using hl
          subst hu
          exact ⟨hpo, hp, trivial⟩
        | cons v vs => exact False.elim hrest
      | cons q qs =>
        cases us with
        | nil => exact False.elim hrest
        | cons v vs =>
          refine ⟨hpo, ?_⟩
          exact ih u (v :: vs) lt hrest (by simpa using hl) hp

/-- Every token visited by a non-empty chained path occurs as a pool
endpoint of the path. -/
theorem ChainPath.visited_mem :
    ∀ (path : List Pool) (t : String) (toks : List String),
    ChainPath t path toks → path ≠ [] →
    ∀ x ∈ t :: toks, ∃ p ∈ path, x ∈ poolTokens p := by
  intro path
  induction path with
  | nil => intro t toks _ hne; exact absurd rfl hne
  | cons p ps ih =>
    intro t toks hc _ x hx
    cases toks with
    | nil => exact False.elim hc
    | cons u us =>
      obtain ⟨hpo, hrest⟩ := hc
      rcases List.mem_cons.mp hx with hx | hx
      · exact ⟨p, List.mem_cons_self p ps, hx ▸ hpo.left_mem⟩
      · cases ps with
        | nil =>
          cases us with
          | nil =>
            have hu : x = u := by simpa using hx
            exact ⟨p, List.mem_cons_self p [], hu ▸ hpo.right_mem⟩
          | cons v vs => exact False.elim hrest
        | cons q qs =>
          cases us with
          | nil => exact False.elim hrest
          | cons v vs =>
            obtain ⟨p2, hp2, hxp2⟩ := ih u (v :: vs) hrest (by simp) x hx
            exact ⟨p2, List.mem_cons_of_mem p hp2, hxp2⟩

/-- The chain's last hop token is an endpoint of the path's last pool. -/
theorem ChainPath.last_mem :
    ∀ (path : List Pool) (t : String) (toks : List String) (x : String)
      (q : Pool),
    ChainPath t path toks → toks.getLast? = some x →
    path.getLast? = some q → x ∈ poolTokens q := by
  intro path
  induction path with
  | nil =>
    intro t toks x q hc hl hq
    exact Option.noConfusion hq
  | cons p ps ih =>
    intro t toks x q hc hl hq
    cases toks with
    | nil => exact False.elim hc
    | cons u us =>
      obtain ⟨hpo, hrest⟩ := hc
      cases ps with
      | nil =>
        cases us with
        | nil =>
          have hx : u = x := by simpa using hl
          have hpq : p = q := by simpa using hq
          subst hx; subst hpq
          exact hpo.right_mem
        | cons v vs => exact False.elim hrest
      | cons r rs =>
        cases us with
        | nil => exact False.elim hrest
        | cons v vs =>
          exact ih u (v :: vs) x q hrest (by simpa using hl)
            (by simpa using hq)

/-- A chained, token-distinct path has consecutive pools sharing exactly
one token. -/
theorem ChainPath.chain_share :
    ∀ (path : List Pool) (t : String) (toks : List String),
    ChainPath t path toks → (t :: toks).Nodup →
    List.Chain' ShareExactlyOne path := by
  intro path
  induction path with
  | nil => intro t toks _ _; exact List.chain'_nil
  | cons p ps ih =>
    intro t toks hc hnd
    cases toks with
    | nil => exact False.elim hc
    | cons u us =>
      obtain ⟨hpo, hrest⟩ := hc
      cases ps with
      | nil => simp
      | cons q qs =>
        cases us with
        | nil => exact False.elim hrest
        | cons v vs =>
          obtain ⟨hpo2, hrest2⟩ := hrest
          have hnd2 : (u :: v :: vs).Nodup := (List.nodup_cons.mp hnd).2
          refine List.chain'_cons.mpr ⟨?_, ih u (v :: vs) ⟨hpo2, hrest2⟩ hnd2⟩
          have htu : t ≠ u := by
            have := (List.nodup_cons.mp hnd).1
            simp only [List.mem_cons] at this
            push_neg at this
            exact this.1
          have huv : u ≠ v := by
            have := (List.nodup_cons.mp hnd2).1
            simp only [List.mem_cons] at this
            push_neg at this
            exact this.1
          have htv : t ≠ v := by
            have := (List.nodup_cons.mp hnd).1
            simp only [List.mem_cons] at this
            push_neg at this
            exact this.2.1
          refine ⟨u, hpo.right_mem, hpo2.left_mem, ?_⟩
          intro w hwp hwq
          rcases hpo.mem_elim hwp with hw | hw
          · subst hw
            rcases hpo2.mem_elim hwq with hw2 | hw2
            · exact absurd hw2 htu
            · exact absurd hw2 htv
          · exact hw

theorem chain_nil {t : String} {toks : List String}
    (h : ChainPath t [] toks) : toks = [] := by
  cases toks with
  | nil => rfl
  | cons u us => exact False.elim h

/-- A token absent from the loop-avoidance check is not an endpoint of
any pool of the path. -/
theorem pathContainsToken_eq_false {path : List Pool} {tok : String}
    (h : pathContainsToken path tok = false) :
    ∀ p ∈ path, tok ∉ poolTokens p := by
  intro p hp hmem
  have htrue : pathContainsToken path tok = true := by
    simp only [pathContainsToken, List.any_eq_true]
    refine ⟨p, hp, ?_⟩
    simp only [Bool.or_eq_true, beq_iff_eq]
    have : tok = strToLower p.token0.address ∨
        tok = strToLower p.token1.address := by
      simpa [poolTokens] using hmem
    rcases this with h1 | h1
    · exact Or.inl h1.symm
    · exact Or.inr h1.symm
  rw [h] at htrue
  exact Bool.noConfusion htrue

/-- Fold steps that only ever append states satisfying P preserve the
queue membership description. -/
theorem foldl_queue_mem {α : Type} (P : PathState → Prop)
    (f : (List PathState × BestMap) → α → (List PathState × BestMap)) :
    ∀ (l : List α),
    (∀ acc x, x ∈ l → ∀ st, st ∈ (f acc x).1 → st ∈ acc.1 ∨ P st) →
    ∀ (acc : List PathState × BestMap) (st : PathState),
    st ∈ (List.foldl f acc l).1 → st ∈ acc.1 ∨ P st := by
  intro l
  induction l with
  | nil => intro _ acc st h; exact Or.inl h
  | cons x xs ih =>
    intro hf acc st h
    rcases ih (fun acc2 y hy st2 => hf acc2 y (List.mem_cons_of_mem x hy) st2)
      (f acc x) st h with h2 | h2
    · exact hf acc x (List.mem_cons_self x xs) st h2
    · exact Or.inr h2

/-- A relaxation step either leaves the queue alone or appends the
one-pool extension of the current state towards the next token. -/
theorem relaxCandidate_mem {st : PathState} {nbr : String} {pool : Pool}
    {acc : List PathState × BestMap} {st2 : PathState}
    (h : st2 ∈ (relaxCandidate st nbr pool acc).1) :
    st2 ∈ acc.1 ∨ ∃ v, st2 = ⟨st.path ++ [pool], v, nbr⟩ := by
  unfold relaxCandidate at h
  cases hc : CalculateOutput pool st.amountOut st.lastToken with
  | error e => rw [hc] at h; exact Or.inl h
  | ok v =>
    rw [hc] at h
    dsimp only at h
    by_cases hv : v ≤ 0
    · rw [if_pos hv] at h; exact Or.inl h
    · rw [if_neg hv] at h
      cases hb : acc.2 nbr with
      | none =>
        rw [hb] at h
        dsimp only at h
        rcases List.mem_append.mp h with h2 | h2
        · exact Or.inl h2
        · exact Or.inr ⟨v, by simpa using h2⟩
      | some bv =>
        rw [hb] at h
        dsimp only at h
        by_cases hbv : bv < v
        · rw [if_pos hbv] at h
          rcases List.mem_append.mp h with h2 | h2
          · exact Or.inl h2
          · exact Or.inr ⟨v, by simpa using h2⟩
        · rw [if_neg hbv] at h; exact Or.inl h

/-- A seeding candidate either leaves the queue alone or appends a
single-pool state towards the neighbor token. -/
theorem seedCandidate_mem {tin : String} {a : Int} {nbr : String}
    {pool : Pool} {acc : List PathState × BestMap} {st2 : PathState}
    (h : st2 ∈ (seedCandidate tin a nbr pool acc).1) :
    st2 ∈ acc.1 ∨ ∃ v, st2 = PathState.mk [pool] v nbr := by
  unfold seedCandidate at h
  cases hc : CalculateOutput pool a tin with
  | error e => rw [hc] at h; exact Or.inl h
  | ok v =>
    rw [hc] at h
    dsimp only at h
    by_cases hv : v ≤ 0
    · rw [if_pos hv] at h; exact Or.inl h
    · rw [if_neg hv] at h
      cases hb : acc.2 nbr with
      | none =>
        rw [hb] at h
        dsimp only at h
        rcases List.mem_append.mp h with h2 | h2
        · exact Or.inl h2
        · exact Or.inr ⟨v, by simpa using h2⟩
      | some bv =>
        rw [hb] at h
        dsimp only at h
        by_cases hbv : bv < v
        · rw [if_pos hbv] at h
          rcases List.mem_append.mp h with h2 | h2
          · exact Or.inl h2
          · exact Or.inr ⟨v, by simpa using h2⟩
        · rw [if_neg hbv] at h
          rcases List.mem_append.mp h with h2 | h2
          · exact Or.inl h2
          · exact Or.inr ⟨v, by simpa using h2⟩

/-- Every state produced by seeding is a single-pool state over a pool of
the edge from tokenIn to its neighbor. -/
theorem seedStates_mem {g : SearchGraph} {tin : String} {a : Int}
    {st2 : PathState} (h : st2 ∈ (seedStates g tin a).1) :
    ∃ nbr pool v, pool ∈ g.poolMap tin nbr ∧
      st2 = PathState.mk [pool] v nbr := by
  unfold seedStates at h
  refine (foldl_queue_mem
    (fun s => ∃ nbr pool v, pool ∈ g.poolMap tin nbr ∧
      s = PathState.mk [pool] v nbr)
    _ (neighborsOf g tin) ?_ ([], fun _ => none) st2 h).resolve_left
    (fun hc => absurd hc (List.not_mem_nil st2))
  intro acc nbr hnbr st3 h3
  refine foldl_queue_mem
    (fun s => ∃ nbr pool v, pool ∈ g.poolMap tin nbr ∧
      s = PathState.mk [pool] v nbr)
    _ (g.poolMap tin nbr) ?_ acc st3 h3
  intro acc2 pool hpool st4 h4
  rcases seedCandidate_mem h4 with h5 | ⟨v, h5⟩
  · exact Or.inl h5
  · exact Or.inr ⟨nbr, pool, v, hpool, h5⟩

/-- Expansion only adds one-pool extensions over edge pools towards
tokens passing the loop-avoidance check. -/
theorem expandState_mem {g : SearchGraph} {st : PathState}
    {qb : List PathState × BestMap} {st2 : PathState}
    (h : st2 ∈ (expandState g st qb).1) :
    st2 ∈ qb.1 ∨ ∃ nbr pool v, pool ∈ g.poolMap st.lastToken nbr ∧
      pathContainsToken st.path nbr = false ∧
      st2 = PathState.mk (st.path ++ [pool]) v nbr := by
  unfold expandState at h
  refine foldl_queue_mem
    (fun s => ∃ nbr pool v, pool ∈ g.poolMap st.lastToken nbr ∧
      pathContainsToken st.path nbr = false ∧
      s = PathState.mk (st.path ++ [pool]) v nbr)
    _ (neighborsOf g st.lastToken) ?_ qb st2 h
  intro acc nbr hnbr st3 h3
  by_cases hpc : pathContainsToken st.path nbr
  · rw [if_pos hpc] at h3; exact Or.inl h3
  · rw [if_neg hpc] at h3
    refine foldl_queue_mem
      (fun s => ∃ nbr pool v, pool ∈ g.poolMap st.lastToken nbr ∧
        pathContainsToken st.path nbr = false ∧
        s = PathState.mk (st.path ++ [pool]) v nbr)
      _ (g.poolMap st.lastToken nbr) ?_ acc st3 h3
    intro acc2 pool hpool st4 h4
    rcases relaxCandidate_mem h4 with h5 | ⟨v, h5⟩
    · exact Or.inl h5
    · exact Or.inr ⟨nbr, pool, v, hpool, by simpa using hpc, h5⟩

/-- Expansion of a well-formed state produces only well-formed states. -/
theorem expandState_inv {g : SearchGraph} {tin : String} {st : PathState}
    {qb : List PathState × BestMap} (hwf : WFGraph g) (hst : StateInv tin st)
    {st2 : PathState} (h : st2 ∈ (expandState g st qb).1) :
    st2 ∈ qb.1 ∨ StateInv tin st2 := by
  rcases expandState_mem h with h2 | ⟨nbr, pool, v, hpool, hpc, h2⟩
  · exact Or.inl h2
  · right
    obtain ⟨hpo, hne⟩ := hwf _ _ _ hpool
    obtain ⟨toks, hchain, hlast, hnd⟩ := hst
    subst h2
    have hpne : st.path ≠ [] := by
      intro hnil
      rw [hnil] at hchain
      rw [chain_nil hchain] at hlast
      simp at hlast
    refine ⟨toks ++ [nbr],
      ChainPath.append_pool st.path tin toks st.lastToken hchain hlast hpo,
      List.getLast?_concat toks, ?_⟩
    have hnotin : nbr ∉ tin :: toks := by
      intro hmem
      obtain ⟨p, hp, hpt⟩ :=
        ChainPath.visited_mem st.path tin toks hchain hpne nbr hmem
      exact pathContainsToken_eq_false hpc p hp hpt
    have : tin :: (toks ++ [nbr]) = (tin :: toks) ++ [nbr] := rfl
    rw [this]
    refine List.Nodup.append hnd (List.nodup_singleton nbr) ?_
    exact List.disjoint_singleton.mpr hnotin

/-- Seeding produces only well-formed states. -/
theorem seedStates_inv {g : SearchGraph} {tin : String} {a : Int}
    (hwf : WFGraph g) {st2 : PathState}
    (h : st2 ∈ (seedStates g tin a).1) : StateInv tin st2 := by
  obtain ⟨nbr, pool, v, hpool, h2⟩ := seedStates_mem h
  obtain ⟨hpo, hne⟩ := hwf _ _ _ hpool
  subst h2
  exact ⟨[nbr], ⟨hpo, trivial⟩, rfl, by simp [hne]⟩

/-- The popped state and every remaining state come from the queue. -/
theorem popMax_mem : ∀ {q : List PathState} {st : PathState}
    {rest : List PathState}, popMax q = some (st, rest) →
    st ∈ q ∧ ∀ x ∈ rest, x ∈ q := by
  intro q
  induction q with
  | nil => intro st rest h; exact Option.noConfusion h
  | cons s t ih =>
    intro st rest h
    unfold popMax at h
    cases hp : popMax t with
    | none =>
      rw [hp] at h
      simp only [Option.some.injEq, Prod.mk.injEq] at h
      obtain ⟨rfl, rfl⟩ := h
      exact ⟨List.mem_cons_self s t,
        fun x hx => absurd hx (List.not_mem_nil x)⟩
    | some pr =>
      obtain ⟨m, r⟩ := pr
      rw [hp] at h
      dsimp only at h
      by_cases hlt : s.amountOut < m.amountOut
      · rw [if_pos hlt] at h
        simp only [Option.some.injEq, Prod.mk.injEq] at h
        obtain ⟨rfl, rfl⟩ := h
        obtain ⟨hm, hr⟩ := ih hp
        refine ⟨List.mem_cons_of_mem s hm, ?_⟩
        intro x hx
        rcases List.mem_cons.mp hx with rfl | hx
        · exact List.mem_cons_self x t
        · exact List.mem_cons_of_mem s (hr x hx)
      · rw [if_neg hlt] at h
        simp only [Option.some.injEq, Prod.mk.injEq] at h
        obtain ⟨rfl, rfl⟩ := h
        exact ⟨List.mem_cons_self s t,
          fun x hx => List.mem_cons_of_mem s hx⟩

/-- Every path the search loop returns is structurally valid, provided
the queue holds only well-formed states and prior results are valid. -/
theorem searchLoop_good (g : SearchGraph) (tout tin : String)
    (mh mp : Nat) (hwf : WFGraph g) :
    ∀ (fuel : Nat) (queue : List PathState) (best : BestMap)
      (results : List (List Pool)),
    (∀ st ∈ queue, StateInv tin st) →
    (∀ pl ∈ results, GoodPath tin tout pl) →
    ∀ pl ∈ searchLoop g tout mh mp fuel queue best results,
      GoodPath tin tout pl := by
  intro fuel
  induction fuel with
  | zero => intro queue best results _ hres pl hpl; exact hres pl hpl
  | succ n ih =>
    intro queue best results hq hres pl hpl
    rw [searchLoop_succ] at hpl
    by_cases hle : mp ≤ results.length
    · rw [if_pos hle] at hpl; exact hres pl hpl
    · rw [if_neg hle] at hpl
      cases hpop : popMax queue with
      | none => rw [hpop] at hpl; exact hres pl hpl
      | some pr =>
        obtain ⟨st, rest⟩ := pr
        rw [hpop] at hpl
        dsimp only at hpl
        obtain ⟨hstq, hrest⟩ := popMax_mem hpop
        have hqrest : ∀ s ∈ rest, StateInv tin s :=
          fun s hs => hq s (hrest s hs)
        by_cases hpr : prunedByBest best st
        · rw [if_pos hpr] at hpl
          exact ih rest best results hqrest hres pl hpl
        · rw [if_neg hpr] at hpl
          by_cases hterm : st.lastToken = tout
          · rw [if_pos hterm] at hpl
            refine ih rest best (results ++ [st.path]) hqrest ?_ pl hpl
            intro pl2 hpl2
            rcases List.mem_append.mp hpl2 with h2 | h2
            · exact hres pl2 h2
            · have hpl3 : pl2 = st.path := by simpa using h2
              subst hpl3
              obtain ⟨toks, hchain, hlast, hnd⟩ := hq st hstq
              exact ⟨toks, hchain, hterm ▸ hlast, hnd⟩
          · rw [if_neg hterm] at hpl
            by_cases hhop : mh ≤ st.path.length
            · rw [if_pos hhop] at hpl
              exact ih rest best results hqrest hres pl hpl
            · rw [if_neg hhop] at hpl
              refine ih _ _ results ?_ hres pl hpl
              intro s hs
              rcases expandState_inv hwf (hq st hstq) hs with h2 | h2
              · exact hqrest s h2
              · exact h2

/-- Every path FindBestPaths returns is structurally valid. -/
theorem FindBestPaths_good {g : SearchGraph} {pfMaxHops : Nat}
    {tokenIn tokenOut : String} {amountIn : Int} {maxHops maxPaths fuel : Nat}
    (hwf : WFGraph g) :
    ∀ pl ∈ FindBestPaths g pfMaxHops tokenIn tokenOut amountIn maxHops
      maxPaths fuel,
    GoodPath (strToLower tokenIn) (strToLower tokenOut) pl := by
  intro pl hpl
  unfold FindBestPaths at hpl
  cases h1 : g.adj (strToLower tokenIn) with
  | none =>
    simp only [h1] at hpl
    exact absurd hpl (List.not_mem_nil pl)
  | some l1 =>
    cases h2 : g.adj (strToLower tokenOut) with
    | none =>
      simp only [h1, h2] at hpl
      exact absurd hpl (List.not_mem_nil pl)
    | some l2 =>
      simp only [h1, h2] at hpl
      refine searchLoop_good g (strToLower tokenOut) (strToLower tokenIn)
        _ maxPaths hwf fuel _ _ [] ?_ ?_ pl hpl
      · intro st hst
        exact seedStates_inv hwf hst
      · intro pl2 hpl2
        exact absurd hpl2 (List.not_mem_nil pl2)

/-- The path list of a successful quote is the evaluated candidate
list. -/
theorem GetBestQuoteFromPaths_ok_paths {paths : List (List Pool)}
    {amountIn : Int} {tin tout : String} {resp : QuoteResponse}
    (h : GetBestQuoteFromPaths paths amountIn tin tout = .ok resp) :
    resp.paths = calculatePathsConcurrently paths amountIn tin tout := by
  unfold GetBestQuoteFromPaths at h
  by_cases hp : paths = []
  · rw [if_pos hp] at h; exact Except.noConfusion h
  · rw [if_neg hp] at h
    dsimp only at h
    cases hf : findOptimalPath (calculatePathsConcurrently paths amountIn tin tout) with
    | none => rw [hf] at h; exact Except.noConfusion h
    | some bp =>
      rw [hf] at h
      dsimp only at h
      injection h with h
      rw [← h]

/-- An emitted trade path carries exactly its candidate's pool list. -/
theorem evalCandidate_some_pools {amountIn : Int} {tin tout : String}
    {p : List Pool} {tp : TradePath}
    (h : evalCandidate amountIn tin tout p = some tp) : tp.pools = p := by
  unfold evalCandidate at h
  cases hc : CalculatePathOutput p amountIn tin tout with
  | error e => rw [hc] at h; exact Option.noConfusion h
  | ok v =>
    rw [hc] at h
    dsimp only at h
    by_cases hv : v ≤ 0
    · rw [if_pos hv] at h; exact Option.noConfusion h
    · rw [if_neg hv] at h
      injection h with h
      rw [← h]

/-- The derived structural facts of a valid path. -/
theorem GoodPath.props {tin tout : String} {pl : List Pool}
    (h : GoodPath tin tout pl) :
    pl ≠ [] ∧
    (∀ p rest2, pl = p :: rest2 → tin ∈ poolTokens p) ∧
    (∀ q, pl.getLast? = some q → tout ∈ poolTokens q) ∧
    List.Chain' ShareExactlyOne pl := by
  obtain ⟨toks, hchain, hlast, hnd⟩ := h
  refine ⟨?_, ?_, ?_, ChainPath.chain_share pl tin toks hchain hnd⟩
  · intro hnil
    rw [hnil] at hchain
    rw [chain_nil hchain] at hlast
    simp at hlast
  · intro p rest2 hpl
    subst hpl
    cases toks with
    | nil => exact False.elim hchain
    | cons u us => exact hchain.1.left_mem
  · intro q hq
    exact ChainPath.last_mem pl tin toks tout q hchain hlast hq

/-- C4.  Structural path invariant: every TradePath returned by a quote
has a pool list chaining from the lowercased tokenIn to the lowercased
tokenOut — it is non-empty, the first pool contains tokenIn, the last
pool contains tokenOut, consecutive pools share exactly one token, and
the sequence of visited tokens contains no token twice (GoodPath), given
a well-formed graph snapshot. -/
theorem c4_structural_invariant (g : SearchGraph) (pfMaxHops : Nat)
    (req : QuoteRequest) (fuel : Nat) (hwf : WFGraph g)
    (resp : QuoteResponse)
    (hok : GetBestQuote g pfMaxHops req fuel = .ok resp)
    (tp : TradePath) (htp : tp ∈ resp.paths) :
    GoodPath (strToLower req.tokenIn) (strToLower req.tokenOut) tp.pools ∧
    tp.pools ≠ [] ∧
    (∀ p rest2, tp.pools = p :: rest2 →
      strToLower req.tokenIn ∈ poolTokens p) ∧
    (∀ q, tp.pools.getLast? = some q →
      strToLower req.tokenOut ∈ poolTokens q) ∧
    List.Chain' ShareExactlyOne tp.pools := by
  unfold GetBestQuote at hok
  have hpaths := GetBestQuoteFromPaths_ok_paths hok
  rw [hpaths] at htp
  unfold calculatePathsConcurrently at htp
  obtain ⟨cand, hcand, heval⟩ := List.mem_filterMap.mp htp
  have hpools : tp.pools = cand := evalCandidate_some_pools heval
  have hgood : GoodPath (strToLower req.tokenIn) (strToLower req.tokenOut)
      tp.pools := by
    rw [hpools]
    exact FindBestPaths_good hwf cand hcand
  obtain ⟨h1, h2, h3, h4⟩ := hgood.props
  exact ⟨hgood, h1, h2, h3, h4⟩

/-- The sample graph is well-formed. -/
theorem sampleGraph_wf : WFGraph sampleGraph := by
  intro a b p hp
  unfold sampleGraph at hp
  dsimp only at hp
  split at hp
  · rename_i hcond
    have hps : p = samplePool := by simpa using hp
    subst hps
    rcases hcond with ⟨ha, hb⟩ | ⟨ha, hb⟩ <;> subst ha <;> subst hb
    · exact ⟨Or.inl ⟨by decide, by decide⟩, by decide⟩
    · exact ⟨Or.inr ⟨by decide, by decide⟩, by decide⟩
  · exact absurd hp (List.not_mem_nil p)

/-- The trade path produced by the sample quote. -/
def sampleTradePath : TradePath :=
  { pools := [samplePool], amountOut := 18, dexes := ["uniswap v2"],
    gasCost := 121000 }

/-- The full response of the sample quote. -/
def sampleResp : QuoteResponse :=
  { amountOut := 18, paths := [sampleTradePath],
    bestPath := some sampleTradePath, gasEstimate := 121000,
    processingTime := 0 }

/-- Witness for c4_structural_invariant: the sample quote end to end. -/
theorem c4_structural_invariant_witness :
    GoodPath (strToLower "0xaaa") (strToLower "0xbbb")
      sampleTradePath.pools ∧
    sampleTradePath.pools ≠ [] ∧
    (∀ p rest2, sampleTradePath.pools = p :: rest2 →
      strToLower "0xaaa" ∈ poolTokens p) ∧
    (∀ q, sampleTradePath.pools.getLast? = some q →
      strToLower "0xbbb" ∈ poolTokens q) ∧
    List.Chain' ShareExactlyOne sampleTradePath.pools :=
  c4_structural_invariant sampleGraph 3
    { tokenIn := "0xaaa", tokenOut := "0xbbb", amountIn := 10, maxHops := 3 }
    10 sampleGraph_wf sampleResp rfl sampleTradePath
    (List.mem_singleton.mpr rfl)

/-! ### C6: router error taxonomy -/

/-- The running maximum of the selection fold is a member of the list
and dominates every element. -/
theorem foldl_best_spec : ∀ (ts : List TradePath) (t : TradePath),
    (ts.foldl (fun bestPath tp =>
        if bestPath.amountOut < tp.amountOut then tp else bestPath) t) ∈
        t :: ts ∧
    t.amountOut ≤ (ts.foldl (fun bestPath tp =>
        if bestPath.amountOut < tp.amountOut then tp else bestPath)
        t).amountOut ∧
    ∀ tp ∈ ts, tp.amountOut ≤ (ts.foldl (fun bestPath tp =>
        if bestPath.amountOut < tp.amountOut then tp else bestPath)
        t).amountOut := by
  intro ts
  induction ts with
  | nil =>
    intro t
    exact ⟨List.mem_cons_self t [], le_refl _,
      fun tp htp => absurd htp (List.not_mem_nil tp)⟩
  | cons x xs ih =>
    intro t
    simp only [List.foldl_cons]
    by_cases hc : t.amountOut < x.amountOut
    · rw [if_pos hc]
      obtain ⟨hmem, hle, hall⟩ := ih x
      refine ⟨List.mem_cons_of_mem t hmem, le_trans (le_of_lt hc) hle, ?_⟩
      intro tp htp
      rcases List.mem_cons.mp htp with h2 | h2
      · rw [h2]; exact hle
      · exact hall tp h2
    · rw [if_neg hc]
      obtain ⟨hmem, hle, hall⟩ := ih t
      refine ⟨?_, hle, ?_⟩
      · rcases List.mem_cons.mp hmem with h2 | h2
        · rw [h2]; exact List.mem_cons_self t (x :: xs)
        · exact List.mem_cons_of_mem t (List.mem_cons_of_mem x h2)
      · intro tp htp
        rcases List.mem_cons.mp htp with h2 | h2
        · rw [h2]; exact le_trans (le_of_not_lt hc) hle
        · exact hall tp h2

/-- The trade path selected by findOptimalPath belongs to the list and
has maximal amountOut. -/
theorem findOptimalPath_max {l : List TradePath} {bp : TradePath}
    (h : findOptimalPath l = some bp) :
    bp ∈ l ∧ ∀ tp ∈ l, tp.amountOut ≤ bp.amountOut := by
  cases l with
  | nil => exact Option.noConfusion h
  | cons t ts =>
    unfold findOptimalPath at h
    injection h with h
    subst h
    obtain ⟨hmem, hle, hall⟩ := foldl_best_spec ts t
    refine ⟨hmem, ?_⟩
    intro tp htp
    rcases List.mem_cons.mp htp with h2 | h2
    · rw [h2]; exact hle
    · exact hall tp h2

/-- Emptiness of findOptimalPath characterizes the empty list. -/
theorem findOptimalPath_eq_none {l : List TradePath} :
    findOptimalPath l = none ↔ l = [] := by
  cases l with
  | nil => simp [findOptimalPath]
  | cons t ts => simp [findOptimalPath]

/-- An emitted trade path certifies a strictly positive recomputed
output, and conversely. -/
theorem evalCandidate_emits_iff (amountIn : Int) (tokenIn tokenOut : String)
    (p : List Pool) :
    (∃ tp, evalCandidate amountIn tokenIn tokenOut p = some tp) ↔
    (∃ v, CalculatePathOutput p amountIn tokenIn tokenOut = .ok v ∧
      0 < v) := by
  unfold evalCandidate
  cases hc : CalculatePathOutput p amountIn tokenIn tokenOut with
  | error e =>
    constructor
    · rintro ⟨tp, htp⟩; exact Option.noConfusion htp
    · rintro ⟨v, hv, _⟩; exact Except.noConfusion hv
  | ok v =>
    constructor
    · rintro ⟨tp, htp⟩
      dsimp only at htp
      by_cases hv : v ≤ 0
      · rw [if_pos hv] at htp; exact Option.noConfusion htp
      · exact ⟨v, rfl, lt_of_not_le hv⟩
    · rintro ⟨w, hw, hwpos⟩
      injection hw with hw
      subst hw
      refine ⟨⟨p, v, getDexesFromPath p, estimateGasCost p⟩, ?_⟩
      dsimp only
      rw [if_neg (not_le.mpr hwpos)]

/-- C6.  Router error taxonomy: (i) an empty candidate list fails with
the no-path error; (ii) for a non-empty candidate list the quote fails
with the no-viable-quote error exactly when no trade path survives
evaluation; (iii) a candidate contributes a TradePath if and only if its
recomputed multi-hop output is strictly positive (per-candidate errors
are dropped); (iv) a successful response carries exactly the surviving
trade paths, and its best path is one of them, of maximal amountOut,
with the response amountOut equal to the best path's. -/
theorem c6_router_taxonomy (paths : List (List Pool)) (amountIn : Int)
    (tokenIn tokenOut : String) :
    (paths = [] →
      GetBestQuoteFromPaths paths amountIn tokenIn tokenOut =
        .error .noPath) ∧
    (paths ≠ [] →
      (GetBestQuoteFromPaths paths amountIn tokenIn tokenOut =
          .error .noViableQuote ↔
        calculatePathsConcurrently paths amountIn tokenIn tokenOut = [])) ∧
    (∀ p ∈ paths,
      ((∃ tp ∈ calculatePathsConcurrently paths amountIn tokenIn tokenOut,
          tp.pools = p) ↔
        (∃ v, CalculatePathOutput p amountIn tokenIn tokenOut = .ok v ∧
          0 < v))) ∧
    (∀ resp, GetBestQuoteFromPaths paths amountIn tokenIn tokenOut =
        .ok resp →
      resp.paths = calculatePathsConcurrently paths amountIn tokenIn tokenOut ∧
      ∃ bp, resp.bestPath = some bp ∧ bp ∈ resp.paths ∧
        resp.amountOut = bp.amountOut ∧ resp.gasEstimate = bp.gasCost ∧
        ∀ tp ∈ resp.paths, tp.amountOut ≤ bp.amountOut) := by
  refine ⟨?_, ?_, ?_, ?_⟩
  · intro hp
    unfold GetBestQuoteFromPaths
    rw [if_pos hp]
  · intro hp
    unfold GetBestQuoteFromPaths
    rw [if_neg hp]
    dsimp only
    cases hf : findOptimalPath
        (calculatePathsConcurrently paths amountIn tokenIn tokenOut) with
    | none =>
      simp only [hf]
      exact ⟨fun _ => findOptimalPath_eq_none.mp hf,
        fun _ => by trivial⟩
    | some bp =>
      simp only [hf]
      constructor
      · intro h2; exact Except.noConfusion h2
      · intro h2
        rw [h2] at hf
        exact Option.noConfusion ((findOptimalPath_eq_none (l := [])).mpr rfl ▸ hf)
  · intro p hp
    constructor
    · rintro ⟨tp, htp, hpools⟩
      obtain ⟨cand, hcand, heval⟩ := List.mem_filterMap.mp htp
      have : cand = p := by rw [← hpools, evalCandidate_some_pools heval]
      subst this
      exact (evalCandidate_emits_iff amountIn tokenIn tokenOut cand).mp
        ⟨tp, heval⟩
    · intro hv
      obtain ⟨tp, htp⟩ :=
        (evalCandidate_emits_iff amountIn tokenIn tokenOut p).mpr hv
      exact ⟨tp, List.mem_filterMap.mpr ⟨p, hp, htp⟩,
        evalCandidate_some_pools htp⟩
  · intro resp hok
    unfold GetBestQuoteFromPaths at hok
    by_cases hp : paths = []
    · rw [if_pos hp] at hok; exact Except.noConfusion hok
    · rw [if_neg hp] at hok
      dsimp only at hok
      cases hf : findOptimalPath
          (calculatePathsConcurrently paths amountIn tokenIn tokenOut) with
      | none => rw [hf] at hok; exact Except.noConfusion hok
      | some bp =>
        rw [hf] at hok
        dsimp only at hok
        injection hok with hok
        obtain ⟨hmem, hmax⟩ := findOptimalPath_max hf
        rw [← hok]
        exact ⟨rfl, bp, rfl, hmem, rfl, rfl, hmax⟩

/-- Witness for c6_router_taxonomy: the sample candidate list with one
viable path, and an empty candidate list. -/
theorem c6_router_taxonomy_witness :
    GetBestQuoteFromPaths [] 10 "0xaaa" "0xbbb" = .error .noPath ∧
    (∃ v, CalculatePathOutput [samplePool] 10 "0xaaa" "0xbbb" = .ok v ∧
      0 < v) ∧
    ∃ bp, sampleResp.bestPath = some bp ∧ bp ∈ sampleResp.paths ∧
      sampleResp.amountOut = bp.amountOut ∧
      sampleResp.gasEstimate = bp.gasCost ∧
      ∀ tp ∈ sampleResp.paths, tp.amountOut ≤ bp.amountOut := by
  refine ⟨(c6_router_taxonomy [] 10 "0xaaa" "0xbbb").1 rfl, ?_, ?_⟩
  · exact ((c6_router_taxonomy [[samplePool]] 10 "0xaaa" "0xbbb").2.2.1
      [samplePool] (List.mem_singleton.mpr rfl)).mp
      ⟨sampleTradePath, List.mem_singleton.mpr rfl, rfl⟩
  · exact ((c6_router_taxonomy [[samplePool]] 10 "0xaaa" "0xbbb").2.2.2
      sampleResp rfl).2

/-! ### C8: JSON encoding model (internal/types/models.go)

encoding/json with the custom MarshalJSON/UnmarshalJSON methods of
models.go is embedded over a JSON value tree.  Decoding follows Go
semantics: an absent field leaves the zero value, a type mismatch is an
error (none), and a *big.Int decoded WITHOUT a custom unmarshaler only
accepts a JSON number (big.Int.UnmarshalJSON rejects a quoted string). -/

/-- JSON values. -/
inductive Json where
  | str : String → Json
  | num : Int → Json
  | obj : List (String × Json) → Json
  | arr : List Json → Json
  | null : Json
  deriving Repr

/-- Object field lookup. -/
def jlookup : List (String × Json) → String → Option Json
  | [], _ => none
  | (k2, v) :: rest, k => if k2 = k then some v else jlookup rest k

/-- The ASCII digit character of d. -/
def digitChar (d : Nat) : Char := Char.ofNat (48 + d)

/-- Base-10 digits, least significant first, computed with structural
fuel so that concrete values reduce in the kernel. -/
def natDigitsAux : Nat → Nat → List Nat
  | _, 0 => []
  | 0, _ + 1 => []
  | fuel + 1, n + 1 => ((n + 1) % 10) :: natDigitsAux fuel ((n + 1) / 10)

/-- Decimal text of a natural number: most significant digit first
(big.Int.String for non-negative values). -/
def natToDecimalString (n : Nat) : String :=
  if n = 0 then "0"
  else String.mk ((natDigitsAux n n).reverse.map digitChar)

/-- Decimal text of an integer (big.Int.String). -/
def intToDecimalString (i : Int) : String :=
  if i < 0 then "-" ++ natToDecimalString i.natAbs
  else natToDecimalString i.natAbs

/-- The digit value of an ASCII digit character. -/
def charToDigit (c : Char) : Option Nat :=
  if 48 ≤ c.toNat ∧ c.toNat ≤ 57 then some (c.toNat - 48) else none

/-- Parse a most-significant-first digit run. -/
def parseDigits : List Char → Nat → Option Nat
  | [], acc => some acc
  | c :: rest, acc =>
    match charToDigit c with
    | none => none
    | some d => parseDigits rest (10 * acc + d)

/-- big.Int.SetString in base 10 over the character list: optional
minus sign, then digits; empty or malformed text fails. -/
def decCharsToInt : List Char → Option Int
  | [] => none
  | c :: rest =>
    if c = '-' then
      match rest with
      | [] => none
      | _ :: _ => (parseDigits rest 0).map (fun n => -(n : Int))
    else (parseDigits (c :: rest) 0).map (fun n => (n : Int))

/-- big.Int.SetString in base 10. -/
def decStringToInt (s : String) : Option Int := decCharsToInt s.data

/-- Read a string-typed field: absent leaves the zero value "", a
non-string value is a decode error. -/
def getStr (fields : List (String × Json)) (k : String) : Option String :=
  match jlookup fields k with
  | none => some ""
  | some (.str s) => some s
  | some _ => none

/-- Read an int-typed field: absent leaves the zero value 0, a
non-number value is a decode error. -/
def getNum (fields : List (String × Json)) (k : String) : Option Int :=
  match jlookup fields k with
  | none => some 0
  | some (.num n) => some n
  | some _ => none

/-- A big integer carried through an aux string field (the custom
unmarshalers): empty text leaves the field unset (Go: a nil pointer,
embedded as 0), anything else must parse in base 10. -/
def decodeBigField (fields : List (String × Json)) (k : String) :
    Option Int :=
  match getStr fields k with
  | none => none
  | some s => if s = "" then some 0 else decStringToInt s

/-- A *big.Int field decoded by the DEFAULT unmarshaler
(big.Int.UnmarshalJSON): a number is accepted, null is ignored (embedded
as 0, like an absent field's nil pointer), and a quoted string is
rejected because SetString sees the quote characters. -/
def decodeBigIntDefault (oj : Option Json) : Option Int :=
  match oj with
  | none => some 0
  | some (.num n) => some n
  | some .null => some 0
  | some _ => none

/-- Decode each element of a JSON array, failing if any element fails. -/
def decodeArr {α : Type} (f : Json → Option α) : List Json → Option (List α)
  | [] => some []
  | j :: rest =>
    match f j with
    | none => none
    | some a =>
      match decodeArr f rest with
      | none => none
      | some tail => some (a :: tail)

/-- Decode a JSON string value. -/
def decodeStr (j : Json) : Option String :=
  match j with
  | .str s => some s
  | _ => none

/-- json.Marshal of Token (no custom marshaler: decimals is a JSON
number). -/
def encodeToken (t : Token) : Json :=
  .obj [("address", .str t.address), ("symbol", .str t.symbol),
        ("decimals", .num t.decimals)]

/-- json.Unmarshal into Token. -/
def decodeToken (j : Json) : Option Token :=
  match j with
  | .obj fields => do
    let address ← getStr fields "address"
    let symbol ← getStr fields "symbol"
    let decimals ← getNum fields "decimals"
    pure ⟨address, symbol, decimals⟩
  | _ => none

/-- Pool.MarshalJSON: the override struct writes reserve0 and reserve1
as decimal strings ahead of the remaining Alias fields. -/
def encodePool (p : Pool) : Json :=
  .obj [("reserve0", .str (intToDecimalString p.reserve0)),
        ("reserve1", .str (intToDecimalString p.reserve1)),
        ("address", .str p.address), ("exchange", .str p.exchange),
        ("version", .str p.version), ("token0", encodeToken p.token0),
        ("token1", encodeToken p.token1), ("fee", .num p.fee),
        ("last_updated", .str p.lastUpdated)]

/-- Pool.UnmarshalJSON: reserves through aux string fields, the rest by
default decoding (an absent token field leaves the zero Token). -/
def decodePool (j : Json) : Option Pool :=
  match j with
  | .obj fields => do
    let address ← getStr fields "address"
    let exchange ← getStr fields "exchange"
    let version ← getStr fields "version"
    let token0 ← match jlookup fields "token0" with
      | none => some ⟨"", "", 0⟩
      | some j0 => decodeToken j0
    let token1 ← match jlookup fields "token1" with
      | none => some ⟨"", "", 0⟩
      | some j1 => decodeToken j1
    let reserve0 ← decodeBigField fields "reserve0"
    let reserve1 ← decodeBigField fields "reserve1"
    let fee ← getNum fields "fee"
    let lastUpdated ← getStr fields "last_updated"
    pure ⟨address, exchange, version, token0, token1, reserve0, reserve1,
      fee, lastUpdated⟩
  | _ => none

/-- QuoteRequest.MarshalJSON: amountIn as a decimal string; maxHops has
omitempty and is dropped when zero. -/
def encodeQuoteRequest (q : QuoteRequest) : Json :=
  .obj ([("amountIn", .str (intToDecimalString q.amountIn)),
         ("tokenIn", .str q.tokenIn), ("tokenOut", .str q.tokenOut)] ++
    (if q.maxHops = 0 then [] else [("maxHops", .num q.maxHops)]))

/-- QuoteRequest.UnmarshalJSON: amountIn through the aux string field. -/
def decodeQuoteRequest (j : Json) : Option QuoteRequest :=
  match j with
  | .obj fields => do
    let aIn ← getStr fields "amountIn"
    let tokenIn ← getStr fields "tokenIn"
    let tokenOut ← getStr fields "tokenOut"
    let maxHops ← getNum fields "maxHops"
    let amountIn ← if aIn = "" then some 0 else decStringToInt aIn
    pure ⟨tokenIn, tokenOut, amountIn, maxHops⟩
  | _ => none

/-- TradePath.MarshalJSON: amountOut and gasCost as decimal strings. -/
def encodeTradePath (tp : TradePath) : Json :=
  .obj [("amountOut", .str (intToDecimalString tp.amountOut)),
        ("gasCost", .str (intToDecimalString tp.gasCost)),
        ("pools", .arr (tp.pools.map encodePool)),
        ("dexes", .arr (tp.dexes.map .str))]

/-- Default decoding of a TradePath — the type has NO custom
UnmarshalJSON, so amountOut and gasCost go through
big.Int.UnmarshalJSON, which rejects the quoted strings the marshaler
produced. -/
def decodeTradePath (j : Json) : Option TradePath :=
  match j with
  | .obj fields => do
    let pools ← match jlookup fields "pools" with
      | none => some []
      | some (.arr js) => decodeArr decodePool js
      | some .null => some []
      | some _ => none
    let amountOut ← decodeBigIntDefault (jlookup fields "amountOut")
    let dexes ← match jlookup fields "dexes" with
      | none => some []
      | some (.arr js) => decodeArr decodeStr js
      | some .null => some []
      | some _ => none
    let gasCost ← decodeBigIntDefault (jlookup fields "gasCost")
    pure ⟨pools, amountOut, dexes, gasCost⟩
  | _ => none

/-- QuoteResponse.MarshalJSON: amountOut and gasEstimate as decimal
strings; bestPath nil marshals to null; processingTime has omitempty. -/
def encodeQuoteResponse (r : QuoteResponse) : Json :=
  .obj ([("amountOut", .str (intToDecimalString r.amountOut)),
         ("gasEstimate", .str (intToDecimalString r.gasEstimate)),
         ("paths", .arr (r.paths.map encodeTradePath)),
         ("bestPath", match r.bestPath with
           | none => .null
           | some tp => encodeTradePath tp)] ++
    (if r.processingTime = 0 then []
     else [("processingTime", .num r.processingTime)]))

/-- QuoteResponse.UnmarshalJSON: amountOut and gasEstimate through aux
string fields; paths and bestPath by default decoding of TradePath. -/
def decodeQuoteResponse (j : Json) : Option QuoteResponse :=
  match j with
  | .obj fields => do
    let aOut ← getStr fields "amountOut"
    let gEst ← getStr fields "gasEstimate"
    let paths ← match jlookup fields "paths" with
      | none => some []
      | some (.arr js) => decodeArr decodeTradePath js
      | some .null => some []
      | some _ => none
    let bestPath ← match jlookup fields "bestPath" with
      | none => some none
      | some .null => some none
      | some j2 => (decodeTradePath j2).map some
    let processingTime ← getNum fields "processingTime"
    let amountOut ← if aOut = "" then some 0 else decStringToInt aOut
    let gasEstimate ← if gEst = "" then some 0 else decStringToInt gEst
    pure ⟨amountOut, paths, bestPath, gasEstimate, processingTime⟩
  | _ => none

/-! ### Decimal round-trip lemmas -/

theorem natDigitsAux_eq (fuel : Nat) : ∀ n, n ≤ fuel →
    natDigitsAux fuel n = Nat.digits 10 n := by
  induction fuel with
  | zero =>
    intro n hn
    interval_cases n
    simp [natDigitsAux]
  | succ f ih =>
    intro n hn
    cases n with
    | zero => simp [natDigitsAux]
    | succ m =>
      rw [natDigitsAux, ih ((m + 1) / 10) (by omega),
        Nat.digits_def' (by norm_num : (1:ℕ) < 10) (Nat.succ_pos m)]

theorem charToDigit_digitChar {d : Nat} (hd : d < 10) :
    charToDigit (digitChar d) = some d := by
  interval_cases d <;> decide

theorem digitChar_ne_minus {d : Nat} (hd : d < 10) : digitChar d ≠ '-' := by
  interval_cases d <;> decide

theorem parseDigits_map : ∀ (l : List Nat), (∀ d ∈ l, d < 10) →
    ∀ acc, parseDigits (l.map digitChar) acc =
      some (l.foldl (fun a d => 10 * a + d) acc) := by
  intro l
  induction l with
  | nil => intro _ acc; rfl
  | cons d rest ih =>
    intro hl acc
    have hd : d < 10 := hl d (List.mem_cons_self d rest)
    simp only [List.map_cons, parseDigits, charToDigit_digitChar hd,
      List.foldl_cons]
    exact ih (fun x hx => hl x (List.mem_cons_of_mem d hx)) (10 * acc + d)

theorem foldr_ofDigits (l : List Nat) :
    l.foldr (fun d a => 10 * a + d) 0 = Nat.ofDigits 10 l := by
  induction l with
  | nil => simp [Nat.ofDigits]
  | cons d rest ih =>
    simp only [List.foldr_cons, Nat.ofDigits_cons, ih]
    ring

theorem parse_natToDecimal (n : Nat) :
    parseDigits (natToDecimalString n).data 0 = some n := by
  rw [natToDecimalString]
  by_cases h0 : n = 0
  · rw [if_pos h0, h0]; rfl
  · rw [if_neg h0, natDigitsAux_eq n n (le_refl n)]
    have hdig : ∀ d ∈ (Nat.digits 10 n).reverse, d < 10 := fun d hd =>
      Nat.digits_lt_base (by norm_num) (List.mem_reverse.mp hd)
    rw [show (String.mk (((Nat.digits 10 n).reverse).map digitChar)).data =
      ((Nat.digits 10 n).reverse).map digitChar from rfl]
    rw [parseDigits_map _ hdig 0]
    rw [List.foldl_reverse, foldr_ofDigits, Nat.ofDigits_digits]

theorem natToDecimalString_data_ne_nil (n : Nat) :
    (natToDecimalString n).data ≠ [] := by
  rw [natToDecimalString]
  by_cases h0 : n = 0
  · rw [if_pos h0]; decide
  · rw [if_neg h0, natDigitsAux_eq n n (le_refl n)]
    have : Nat.digits 10 n ≠ [] := Nat.digits_ne_nil_iff_ne_zero.mpr h0
    simpa using this

theorem natToDecimalString_head_ne_minus {n : Nat} {c : Char}
    {cs : List Char} (h : (natToDecimalString n).data = c :: cs) :
    c ≠ '-' := by
  rw [natToDecimalString] at h
  by_cases h0 : n = 0
  · rw [if_pos h0] at h
    have hc : c = '0' := by
      have h2 : ('0' : Char) :: [] = c :: cs := h
      injection h2 with h2 _
      exact h2.symm
    rw [hc]; decide
  · rw [if_neg h0, natDigitsAux_eq n n (le_refl n)] at h
    cases hrev : (Nat.digits 10 n).reverse with
    | nil => rw [hrev] at h; exact absurd h (by simp)
    | cons d ds =>
      rw [hrev, List.map_cons] at h
      have hd : d < 10 := Nat.digits_lt_base (by norm_num)
        (List.mem_reverse.mp (hrev ▸ List.mem_cons_self d ds))
      have h2 : c = digitChar d := by
        have h3 := congrArg List.head? h
        simpa using h3.symm
      rw [h2]
      exact digitChar_ne_minus hd

theorem decChars_natToDecimal (n : Nat) :
    decCharsToInt (natToDecimalString n).data = some (n : Int) := by
  cases hdata : (natToDecimalString n).data with
  | nil => exact absurd hdata (natToDecimalString_data_ne_nil n)
  | cons c cs =>
    simp only [decCharsToInt,
      if_neg (natToDecimalString_head_ne_minus hdata)]
    rw [← hdata, parse_natToDecimal n]
    rfl

theorem intToDecimalString_parse (i : Int) :
    decStringToInt (intToDecimalString i) = some i := by
  rw [decStringToInt, intToDecimalString]
  by_cases hneg : i < 0
  · rw [if_pos hneg]
    rw [show ("-" ++ natToDecimalString i.natAbs).data =
      Char.ofNat 45 :: (natToDecimalString i.natAbs).data from rfl]
    cases hdata : (natToDecimalString i.natAbs).data with
    | nil => exact absurd hdata (natToDecimalString_data_ne_nil _)
    | cons c cs =>
      show (parseDigits (c :: cs) 0).map (fun n => -(n : Int)) = some i
      rw [← hdata, parse_natToDecimal]
      show some (-(i.natAbs : Int)) = some i
      congr 1
      omega
  · rw [if_neg hneg, decChars_natToDecimal]
    congr 1
    omega

theorem intToDecimalString_ne_empty (i : Int) :
    intToDecimalString i ≠ "" := by
  intro h
  have hd := congrArg String.data h
  rw [intToDecimalString] at hd
  by_cases hneg : i < 0
  · rw [if_pos hneg] at hd
    exact absurd hd (by simp)
  · rw [if_neg hneg] at hd
    exact natToDecimalString_data_ne_nil _ hd

/-! ### Structure round trips and the C8 verdict -/

theorem decodeToken_encodeToken (t : Token) :
    decodeToken (encodeToken t) = some t := rfl

theorem decodePool_encodePool (p : Pool) :
    decodePool (encodePool p) = some p := by
  obtain ⟨addr, exch, ver, t0, t1, r0, r1, fee, lu⟩ := p
  simp [encodePool, decodePool, jlookup, getStr, getNum, decodeBigField,
    decodeToken_encodeToken, intToDecimalString_ne_empty,
    intToDecimalString_parse]

theorem decodeQuoteRequest_encodeQuoteRequest (q : QuoteRequest) :
    decodeQuoteRequest (encodeQuoteRequest q) = some q := by
  obtain ⟨t1, t2, a, mh⟩ := q
  by_cases hmh : mh = 0
  · subst hmh
    simp [encodeQuoteRequest, decodeQuoteRequest, jlookup, getStr, getNum,
      intToDecimalString_ne_empty, intToDecimalString_parse]
  · simp [encodeQuoteRequest, decodeQuoteRequest, hmh, jlookup, getStr,
      getNum, intToDecimalString_ne_empty, intToDecimalString_parse]

theorem decodeArr_encodePool (l : List Pool) :
    decodeArr decodePool (l.map encodePool) = some l := by
  induction l with
  | nil => rfl
  | cons p ps ih => simp [decodeArr, decodePool_encodePool p, ih]

/-- Decoding an encoded TradePath always fails: the type has no custom
UnmarshalJSON, so its amountOut string is fed to big.Int.UnmarshalJSON,
which rejects quoted text. -/
theorem decodeTradePath_encodeTradePath (tp : TradePath) :
    decodeTradePath (encodeTradePath tp) = none := by
  obtain ⟨pools, ao, dexes, gc⟩ := tp
  simp [encodeTradePath, decodeTradePath, jlookup, decodeBigIntDefault,
    decodeArr_encodePool]

/-- Decoding an encoded QuoteResponse fails whenever it holds at least
one trade path. -/
theorem decodeQuoteResponse_encode_none {r : QuoteResponse}
    (h : r.paths ≠ []) :
    decodeQuoteResponse (encodeQuoteResponse r) = none := by
  obtain ⟨ao, paths, bp, ge, pt⟩ := r
  cases paths with
  | nil => exact absurd rfl h
  | cons tp tps =>
    simp [encodeQuoteResponse, decodeQuoteResponse, jlookup, getStr,
      getNum, decodeArr, decodeTradePath_encodeTradePath,
      intToDecimalString_ne_empty, intToDecimalString_parse]

/-- Round trip of a QuoteResponse without trade paths. -/
theorem decodeQuoteResponse_encode_empty {r : QuoteResponse}
    (hp : r.paths = []) (hb : r.bestPath = none) :
    decodeQuoteResponse (encodeQuoteResponse r) = some r := by
  obtain ⟨ao, paths, bp, ge, pt⟩ := r
  dsimp only at hp hb
  subst hp
  subst hb
  by_cases hpt : pt = 0
  · subst hpt
    simp [encodeQuoteResponse, decodeQuoteResponse, jlookup, getStr,
      getNum, decodeArr, intToDecimalString_ne_empty,
      intToDecimalString_parse]
  · simp [encodeQuoteResponse, decodeQuoteResponse, hpt, jlookup, getStr,
      getNum, decodeArr, intToDecimalString_ne_empty,
      intToDecimalString_parse]

/-- The encoded object carries field k as the decimal string of v. -/
def jfieldIsDecString (j : Json) (k : String) (v : Int) : Prop :=
  match j with
  | .obj fields => jlookup fields k = some (.str (intToDecimalString v))
  | _ => False

/-- C8 counterexample.  The claimed JSON round-trip identity fails for a
concrete QuoteResponse holding one TradePath: decoding its encoding
errors out (returns none, not the original value), because TradePath has
no custom UnmarshalJSON and big.Int.UnmarshalJSON rejects the quoted
amountOut/gasCost strings the marshaler produced. -/
theorem c8_roundtrip_counterexample :
    decodeQuoteResponse (encodeQuoteResponse sampleResp) = none ∧
    (none : Option QuoteResponse) ≠ some sampleResp :=
  ⟨decodeQuoteResponse_encode_none (by decide), by decide⟩

/-- C8 (amended).  JSON round trip: encoding and decoding restores every
field for Pool and QuoteRequest; for QuoteResponse it restores every
field when the value carries no TradePath (empty paths, nil bestPath),
and decoding fails whenever a TradePath is present, since TradePath has
no custom decoder and its big-integer strings are rejected.  The
big-integer fields (reserves, amount_in, amount_out, gas_estimate,
gas_cost) are always encoded as decimal strings, never as JSON
numbers. -/
theorem c8_json_roundtrip (p : Pool) (q : QuoteRequest)
    (r : QuoteResponse) (tp : TradePath) :
    decodePool (encodePool p) = some p ∧
    decodeQuoteRequest (encodeQuoteRequest q) = some q ∧
    (r.paths = [] → r.bestPath = none →
      decodeQuoteResponse (encodeQuoteResponse r) = some r) ∧
    (r.paths ≠ [] →
      decodeQuoteResponse (encodeQuoteResponse r) = none) ∧
    jfieldIsDecString (encodePool p) "reserve0" p.reserve0 ∧
    jfieldIsDecString (encodePool p) "reserve1" p.reserve1 ∧
    jfieldIsDecString (encodeQuoteRequest q) "amountIn" q.amountIn ∧
    jfieldIsDecString (encodeQuoteResponse r) "amountOut" r.amountOut ∧
    jfieldIsDecString (encodeQuoteResponse r) "gasEstimate" r.gasEstimate ∧
    jfieldIsDecString (encodeTradePath tp) "amountOut" tp.amountOut ∧
    jfieldIsDecString (encodeTradePath tp) "gasCost" tp.gasCost := by
  refine ⟨decodePool_encodePool p, decodeQuoteRequest_encodeQuoteRequest q,
    decodeQuoteResponse_encode_empty, decodeQuoteResponse_encode_none,
    rfl, ?_, ?_, rfl, ?_, rfl, ?_⟩
  · simp [jfieldIsDecString, encodePool, jlookup]
  · simp [jfieldIsDecString, encodeQuoteRequest, jlookup]
  · simp [jfieldIsDecString, encodeQuoteResponse, jlookup]
  · simp [jfieldIsDecString, encodeTradePath, jlookup]

/-- The empty quote response used by the c8 witness. -/
def emptyQuoteResponse : QuoteResponse :=
  { amountOut := 0, paths := [], bestPath := none, gasEstimate := 0,
    processingTime := 0 }

/-- Witness for c8_json_roundtrip at concrete values. -/
theorem c8_json_roundtrip_witness :
    decodeQuoteResponse (encodeQuoteResponse emptyQuoteResponse) =
      some emptyQuoteResponse ∧
    decodePool (encodePool samplePool) = some samplePool :=
  ⟨(c8_json_roundtrip samplePool
      ⟨"0xaaa", "0xbbb", 10, 3⟩ emptyQuoteResponse sampleTradePath).2.2.1
    rfl rfl,
   (c8_json_roundtrip samplePool
      ⟨"0xaaa", "0xbbb", 10, 3⟩ emptyQuoteResponse sampleTradePath).1⟩

/-! ### C9: token store behaviour

The three store implementations.  The remote store is modelled over a
key-value state holding JSON documents; the in-memory store keeps no
token state at all (its StoreToken is a no-op in the source). -/

/-- MemoryStore.StoreToken (internal/cache/memory_store.go lines
129-131): does nothing and returns a nil error. -/
def memStoreToken (_t : Token) : Except String Unit := .ok ()

/-- MemoryStore.GetToken (internal/cache/memory_store.go lines 133-139):
unconditionally returns the fallback token. -/
def memGetToken (address : String) : Token :=
  { address := address, symbol := "UNKNOWN", decimals := 18 }

/-- The remote store's key-value state: key to stored JSON document. -/
def RedisState : Type := String → Option Json

/-- The token key layout {prefix}token:{address} with the default
prefix. -/
def redisTokenKey (address : String) : String := "dex:token:" ++ address

/-- RedisStore.StoreToken (src/unnamed/part_005 lines 149-158):
json.Marshal the token and SET it under its key. -/
def redisStoreToken (st : RedisState) (t : Token) : RedisState :=
  fun k => if k = redisTokenKey t.address then some (encodeToken t) else st k

/-- RedisStore.GetToken (src/unnamed/part_005 lines 160-182): a missing
key (redis.Nil) yields the fallback token; otherwise the stored JSON is
unmarshalled. -/
def redisGetToken (st : RedisState) (address : String) : Option Token :=
  match st (redisTokenKey address) with
  | none => some { address := address, symbol := "UNKNOWN", decimals := 18 }
  | some data => decodeToken data

/-- TwoLevelCache.StoreToken (internal/cache/two_level_cache.go lines
126-133): writes to the local store (a no-op) and then to Redis. -/
def tlcStoreToken (st : RedisState) (t : Token) : RedisState :=
  redisStoreToken st t

/-- TwoLevelCache.GetToken (internal/cache/two_level_cache.go lines
136-145): tries the local store first and returns its result on
success — and the local GetToken never fails, so Redis is never
consulted. -/
def tlcGetToken (_st : RedisState) (address : String) : Option Token :=
  some (memGetToken address)

/-- C9 counterexample.  Store-then-get fails on the in-memory store and
on the two-tier cache at a concrete token: after StoreToken succeeds,
GetToken still returns the fallback {address, UNKNOWN, 18}, not the
stored token. -/
theorem c9_token_store_counterexample :
    memStoreToken ⟨"0xtok", "ABC", 6⟩ = .ok () ∧
    memGetToken "0xtok" ≠ ⟨"0xtok", "ABC", 6⟩ ∧
    tlcGetToken (tlcStoreToken (fun _ => none) ⟨"0xtok", "ABC", 6⟩)
      "0xtok" ≠ some ⟨"0xtok", "ABC", 6⟩ :=
  ⟨rfl, by decide, by decide⟩

/-- C9 (amended).  Token store behaviour: the remote store satisfies the
contract — after StoreToken(t), GetToken(t.address) returns t, and an
address with no stored token yields the fallback {address, UNKNOWN, 18}.
The in-memory store ignores StoreToken and always answers the fallback
token, and the two-tier cache always answers its local store's fallback
as well, even after a successful store. -/
theorem c9_token_store (t : Token) (address : String) (st : RedisState) :
    redisGetToken (redisStoreToken st t) t.address = some t ∧
    (st (redisTokenKey address) = none →
      redisGetToken st address =
        some { address := address, symbol := "UNKNOWN", decimals := 18 }) ∧
    memGetToken address =
      { address := address, symbol := "UNKNOWN", decimals := 18 } ∧
    tlcGetToken (tlcStoreToken st t) address =
      some { address := address, symbol := "UNKNOWN", decimals := 18 } := by
  refine ⟨?_, ?_, rfl, rfl⟩
  · simp [redisGetToken, redisStoreToken, decodeToken_encodeToken]
  · intro h
    simp [redisGetToken, h]

/-- Witness for c9_token_store at a concrete token and an absent
address. -/
theorem c9_token_store_witness :
    redisGetToken (redisStoreToken (fun _ => none) ⟨"0xtok", "ABC", 6⟩)
      "0xtok" = some ⟨"0xtok", "ABC", 6⟩ ∧
    redisGetToken (fun _ => none) "0xother" =
      some ⟨"0xother", "UNKNOWN", 18⟩ :=
  ⟨(c9_token_store ⟨"0xtok", "ABC", 6⟩ "0xother" (fun _ => none)).1,
   (c9_token_store ⟨"0xtok", "ABC", 6⟩ "0xother" (fun _ => none)).2.1 rfl⟩

end DexAgg
